import Mathlib

/-
Verification of the PR Reviewer app (src/main.py) against its specification.

The embedding works on `List Char` as the model of Python `str` (a sequence of
code points).  Fallible Python operations are modelled in `Except PyErr`;
a raised exception is an `Except.error`.  The JSON machinery models the
behaviour of Python's `json.loads` (strict mode) on the fragments the
claims exercise.
-/

namespace PRReview

/-- Python exception classes that the code under review can raise or catch. -/
inductive PyErr where
  | valueError
  | typeError
  | attributeError
  | jsonDecodeError
  | httpError (detail : List Char)
  | runtimeError
deriving DecidableEq, Repr

/-- Whitespace characters removed by Python's `str.strip()` (ASCII subset;
the full Python definition also strips some further Unicode spaces, which
none of the claims exercise). -/
def isPySpace (c : Char) : Bool :=
  c = ' ' || c = '\t' || c = '\n' || c = '\r' || c = '\x0b' || c = '\x0c'

/-- Python `text.strip()`: drop leading and trailing whitespace. -/
def pyStrip (t : List Char) : List Char :=
  ((t.dropWhile isPySpace).reverse.dropWhile isPySpace).reverse

/-- Strip a literal off the front of a character list, or fail. -/
def dropLit : List Char → List Char → Option (List Char)
  | [], t => some t
  | _ :: _, [] => none
  | l :: ls, c :: cs => if c = l then dropLit ls cs else none

/-- Numeric value of a decimal digit character. -/
def digitVal (c : Char) : Nat := c.toNat - 48

/-- Value of a run of decimal digit characters, as computed by Python `int`. -/
def digitsToNat (ds : List Char) : Nat := ds.foldl (fun a c => 10 * a + digitVal c) 0

/-- The decimal digit character for `n < 10`. -/
def decDigit (n : Nat) : Char := Char.ofNat (48 + n)

/-- Canonical decimal digits of a natural number (no leading zeros). -/
def natDigits (n : Nat) : List Char :=
  if _h : n < 10 then [decDigit n] else natDigits (n / 10) ++ [decDigit (n % 10)]
decreasing_by exact Nat.div_lt_self (by omega) (by omega)

/-- The character class `[^/]` of the owner and repo groups. -/
def notSlash (c : Char) : Bool := c ≠ '/'

/-- The `<owner>/<repo>/pull/<digits>` tail of the PR-URL regex, matched
after the scheme and host: a maximal nonempty run of non-slash characters,
a slash, another such run, the literal `/pull/`, and a maximal nonempty
digit run.  `[^/]+` cannot eat a `/`, so the regex engine's backtracking
never yields a second parse and this direct reading is exact. -/
def matchTail (t3 : List Char) : Option (List Char × List Char × Nat) :=
  if (t3.takeWhile notSlash).isEmpty then none
  else
    match t3.dropWhile notSlash with
    | '/' :: t4 =>
      if (t4.takeWhile notSlash).isEmpty then none
      else
        match dropLit (("/pull/").data) (t4.dropWhile notSlash) with
        | none => none
        | some t5 =>
          if (t5.takeWhile Char.isDigit).isEmpty then none
          else some (t3.takeWhile notSlash, t4.takeWhile notSlash,
            digitsToNat (t5.takeWhile Char.isDigit))
    | _ => none

/--
One attempted match of the regular expression
`https?://github\.com/(?P<owner>[^/]+)/(?P<repo>[^/]+)/pull/(?P<number>\d+)`
(src/main.py line 73) at the head of `t`.  The regex is deterministic:
after `http` an optional `s` must be followed by `://`, so no backtracking
case is lost.  `\d+` is modelled as ASCII digits (Python would additionally
accept other Unicode decimal digits). -/
def matchAt (t : List Char) : Option (List Char × List Char × Nat) :=
  match dropLit (("http").data) t with
  | none => none
  | some t1 =>
    match dropLit (("://github.com/").data)
        (match t1 with
         | 's' :: r => r
         | _ => t1) with
    | none => none
    | some t3 => matchTail t3

/-- `re.search`: try the pattern at every start position, leftmost match wins. -/
def matchFrom : List Char → Option (List Char × List Char × Nat)
  | [] => none
  | c :: rest =>
    match matchAt (c :: rest) with
    | some r => some r
    | none => matchFrom rest

/-- `parse_pr_url` (src/main.py lines 75-79): strip the input, search for the
PR-URL pattern, and return the `(owner, repo, number)` triple or `None`. -/
def parse_pr_url (url : List Char) : Option (List Char × List Char × Nat) :=
  matchFrom (pyStrip url)

/-- Whether `t` begins with `/pull/` followed by a decimal digit. -/
def startsPullDigit (t : List Char) : Bool :=
  match dropLit (("/pull/").data) t with
  | some (d :: _) => d.isDigit
  | _ => false

/-- Whether `t` contains `/pull/` followed by a decimal digit anywhere. -/
def hasPullDigit : List Char → Bool
  | [] => false
  | c :: rest => startsPullDigit (c :: rest) || hasPullDigit rest

/-- A JSON float literal as Python's `json` module classifies it: either a
finite float given by sign, integer part, fraction digits and exponent
(sign and digits), or one of the non-strict constants `NaN`, `Infinity`,
`-Infinity` that `json.loads` accepts by default.  Two lexemes denoting the
same float (e.g. `1.5` and `1.50`) are distinct values here; no claim
compares floats, so float arithmetic is never modelled. -/
inductive NumLit where
  | fin (neg : Bool) (ip : List Char) (fr : List Char) (eneg : Bool) (ex : List Char)
  | nan
  | inf
  | ninf
deriving DecidableEq, Repr

mutual
/-- The values `json.loads` can produce: `None`, `bool`, `int`, `float`,
`str`, `list`, `dict`.  Objects keep their members as an ordered
association list (Python dict semantics — duplicate keys resolved
last-wins, first-position — live in the lookup/iteration helpers). -/
inductive Json where
  | jnull
  | jbool (b : Bool)
  | jint (n : Int)
  | jnum (x : NumLit)
  | jstr (s : List Char)
  | jarr (elems : JArr)
  | jobj (members : JObj)
/-- A list of JSON values (mutual with `Json`). -/
inductive JArr where
  | anil
  | acons (hd : Json) (tl : JArr)
/-- An ordered association list of JSON object members (mutual with `Json`). -/
inductive JObj where
  | onil
  | ocons (key : List Char) (val : Json) (tl : JObj)
end

def JArr.ofList : List Json → JArr
  | [] => .anil
  | x :: xs => .acons x (JArr.ofList xs)

def JArr.toList : JArr → List Json
  | .anil => []
  | .acons x xs => x :: xs.toList

def JObj.ofList : List (List Char × Json) → JObj
  | [] => .onil
  | (k, v) :: xs => .ocons k v (JObj.ofList xs)

def JObj.toList : JObj → List (List Char × Json)
  | .onil => []
  | .ocons k v xs => (k, v) :: xs.toList

/-- The keys of an object, in order, with duplicates kept. -/
def JObj.keys : JObj → List (List Char)
  | .onil => []
  | .ocons k _ xs => k :: xs.keys

/-- Python `dict` lookup with default: the value of the LAST binding of `k`
(later duplicate keys overwrite earlier ones in `dict`). -/
def JObj.getD (ms : JObj) (k : List Char) (d : Json) : Json :=
  match ms with
  | .onil => d
  | .ocons k2 v tl => tl.getD k (if k2 = k then v else d)

/-- Lowercase hex digit for `n < 16` (as in Python's `\uXXXX` output). -/
def hexDigitChar (n : Nat) : Char :=
  if n < 10 then Char.ofNat (48 + n) else Char.ofNat (87 + n)

/-- JSON string escaping of one character: the standard short escapes, other
control characters as `\u00XX`, and everything else verbatim. -/
def escChar (c : Char) : List Char :=
  if c = '"' then ['\\', '"']
  else if c = '\\' then ['\\', '\\']
  else if c = '\n' then ['\\', 'n']
  else if c = '\t' then ['\\', 't']
  else if c = '\r' then ['\\', 'r']
  else if c = '\x08' then ['\\', 'b']
  else if c = '\x0c' then ['\\', 'f']
  else if c.toNat < 32 then ['\\', 'u', '0', '0', hexDigitChar (c.toNat / 16), hexDigitChar (c.toNat % 16)]
  else [c]

def escStr : List Char → List Char
  | [] => []
  | c :: r => escChar c ++ escStr r

/-- Decimal representation of a Python `int`. -/
def intRepr (n : Int) : List Char :=
  if n < 0 then '-' :: natDigits n.natAbs else natDigits n.toNat

/-- Serialization of a float literal. -/
def dumpNum : NumLit → List Char
  | .nan => ("NaN").data
  | .inf => ("Infinity").data
  | .ninf => ("-Infinity").data
  | .fin neg ip fr eneg ex =>
      (if neg then ['-'] else []) ++ ip
      ++ (if fr.isEmpty then [] else '.' :: fr)
      ++ (if ex.isEmpty then [] else 'e' :: ((if eneg then ['-'] else []) ++ ex))

/-- Serialized form of an object key followed by `:`. -/
def jkey (k : List Char) : List Char := '"' :: escStr k ++ '"' :: [':']

mutual
/-- Compact JSON serialization (no whitespace), the reference serialization
used to state the round-trip claim. -/
def dumpJson : Json → List Char
  | .jnull => ("null").data
  | .jbool true => ("true").data
  | .jbool false => ("false").data
  | .jint n => intRepr n
  | .jnum x => dumpNum x
  | .jstr s => '"' :: escStr s ++ ['"']
  | .jarr es => '[' :: dumpArr es ++ [']']
  | .jobj ms => '{' :: dumpObj ms ++ ['}']
/-- The comma-separated element list of an array (no brackets). -/
def dumpArr : JArr → List Char
  | .anil => []
  | .acons x .anil => dumpJson x
  | .acons x (.acons y tl) => dumpJson x ++ ',' :: dumpArr (.acons y tl)
/-- The comma-separated member list of an object (no braces). -/
def dumpObj : JObj → List Char
  | .onil => []
  | .ocons k v .onil => jkey k ++ dumpJson v
  | .ocons k v (.ocons k2 v2 tl) => jkey k ++ dumpJson v ++ ',' :: dumpObj (.ocons k2 v2 tl)
end

/-- Well-formed integer part of a JSON number: `0` or digits with no
leading zero. -/
def wfIntPart (ip : List Char) : Bool :=
  ip = ['0'] || (ip.all Char.isDigit && !ip.isEmpty && ip.headD 'x' ≠ '0')

/-- Well-formed float literal: a lexeme the JSON number grammar produces
with a fraction or exponent present (otherwise it would be an `int`), or a
non-strict constant. -/
def wfNum : NumLit → Bool
  | .nan => true
  | .inf => true
  | .ninf => true
  | .fin _neg ip fr eneg ex =>
      wfIntPart ip && fr.all Char.isDigit && ex.all Char.isDigit
      && (!fr.isEmpty || !ex.isEmpty) && (!ex.isEmpty || !eneg)

mutual
/-- Serializable JSON values: every float literal inside is well-formed. -/
def wfJson : Json → Bool
  | .jnull => true
  | .jbool _ => true
  | .jint _ => true
  | .jnum x => wfNum x
  | .jstr _ => true
  | .jarr es => wfArr es
  | .jobj ms => wfObj ms
def wfArr : JArr → Bool
  | .anil => true
  | .acons x tl => wfJson x && wfArr tl
def wfObj : JObj → Bool
  | .onil => true
  | .ocons _ v tl => wfJson v && wfObj tl
end

/-- JSON inter-token whitespace (exactly the four characters Python's
`json` module skips). -/
def isJWs (c : Char) : Bool := c = ' ' || c = '\t' || c = '\n' || c = '\r'

def skipWs (t : List Char) : List Char := t.dropWhile isJWs

def hexVal (c : Char) : Option Nat :=
  if '0' ≤ c ∧ c ≤ '9' then some (c.toNat - 48)
  else if 'a' ≤ c ∧ c ≤ 'f' then some (c.toNat - 87)
  else if 'A' ≤ c ∧ c ≤ 'F' then some (c.toNat - 55)
  else none

def hex4 (a b c d : Char) : Option Nat := do
  let x ← hexVal a
  let y ← hexVal b
  let z ← hexVal c
  let w ← hexVal d
  pure (4096 * x + 256 * y + 16 * z + w)

/-- The code point of a single-character escape (`\"`, `\\`, `\/`, `\b`,
`\f`, `\n`, `\r`, `\t`); anything else after a backslash is invalid
(`\uXXXX` is handled separately). -/
def escDecode (e : Char) : Option Nat :=
  if e = '"' then some 34
  else if e = '\\' then some 92
  else if e = '/' then some 47
  else if e = 'b' then some 8
  else if e = 'f' then some 12
  else if e = 'n' then some 10
  else if e = 'r' then some 13
  else if e = 't' then some 9
  else none

mutual
/-- The raw body scan of a strict JSON string (after the opening quote):
standard escapes, `\uXXXX` kept as its code point (possibly a surrogate),
raw control characters rejected.  Returns the code points and the text
after the closing quote. -/
def parseJStrRaw : List Char → Except PyErr (List Nat × List Char)
  | [] => .error .jsonDecodeError
  | c :: r =>
    if c = '"' then .ok ([], r)
    else if c = '\\' then parseJEsc r
    else if c.toNat < 32 then .error .jsonDecodeError
    else (parseJStrRaw r).map (fun p => (c.toNat :: p.1, p.2))
/-- The text after a backslash inside a strict JSON string: a `\uXXXX`
escape or a single-character escape. -/
def parseJEsc : List Char → Except PyErr (List Nat × List Char)
  | [] => .error .jsonDecodeError
  | 'u' :: a :: b :: c2 :: d :: r2 =>
    (match hex4 a b c2 d with
     | none => .error .jsonDecodeError
     | some n => (parseJStrRaw r2).map (fun p => (n :: p.1, p.2)))
  | e :: r2 =>
    (match escDecode e with
     | some n => (parseJStrRaw r2).map (fun p => (n :: p.1, p.2))
     | none => .error .jsonDecodeError)
end

/-- Combine adjacent high/low surrogate pairs exactly as Python's scanner
does, left to right.  Python keeps a lone surrogate in the `str`; `Char`
cannot represent one, so `Char.ofNat` degrades it to `'\0'` — no claim
exercises lone surrogates. -/
def combineSurrogates : List Nat → List Char
  | [] => []
  | [n] => [Char.ofNat n]
  | n :: m :: rest =>
    if 0xD800 ≤ n ∧ n ≤ 0xDBFF ∧ 0xDC00 ≤ m ∧ m ≤ 0xDFFF then
      Char.ofNat (0x10000 + (n - 0xD800) * 0x400 + (m - 0xDC00)) :: combineSurrogates rest
    else Char.ofNat n :: combineSurrogates (m :: rest)

/-- The body of a strict JSON string: raw scan plus surrogate combination. -/
def parseJString (t : List Char) : Except PyErr (List Char × List Char) :=
  (parseJStrRaw t).map (fun p => (combineSurrogates p.1, p.2))

/-- The `(0|[1-9]\d*)` integer part of the JSON number regex. -/
def lexIntPart : List Char → Option (List Char × List Char)
  | '0' :: r => some (['0'], r)
  | c :: r => if c.isDigit then some (c :: r.takeWhile Char.isDigit, r.dropWhile Char.isDigit) else none
  | [] => none

/-- The optional `(\.\d+)` fraction; consumes nothing when absent. -/
def lexFrac : List Char → (List Char × List Char)
  | '.' :: c :: r =>
    if c.isDigit then (c :: r.takeWhile Char.isDigit, r.dropWhile Char.isDigit)
    else ([], '.' :: c :: r)
  | t => ([], t)

/-- The optional `([eE][-+]?\d+)` exponent; consumes nothing when absent.
Returns (sign is `-`, digits, rest). -/
def lexExp : List Char → (Bool × List Char × List Char)
  | e :: '+' :: c :: r =>
    if (e = 'e' || e = 'E') && c.isDigit then (false, c :: r.takeWhile Char.isDigit, r.dropWhile Char.isDigit)
    else (false, [], e :: '+' :: c :: r)
  | e :: '-' :: c :: r =>
    if (e = 'e' || e = 'E') && c.isDigit then (true, c :: r.takeWhile Char.isDigit, r.dropWhile Char.isDigit)
    else (false, [], e :: '-' :: c :: r)
  | e :: c :: r =>
    if (e = 'e' || e = 'E') && c.isDigit then (false, c :: r.takeWhile Char.isDigit, r.dropWhile Char.isDigit)
    else (false, [], e :: c :: r)
  | t => (false, [], t)

def intOfParts (neg : Bool) (ip : List Char) : Int :=
  if neg then -(digitsToNat ip : Int) else (digitsToNat ip : Int)

/-- The number regex after the optional leading `-` has been consumed:
`(0|[1-9]\d*)(\.\d+)?([eE][-+]?\d+)?`; ints and floats are told apart
exactly as Python does (float iff a fraction or exponent is present). -/
def lexNumAfterSign (neg : Bool) (t : List Char) : Option (Json × List Char) :=
  match lexIntPart t with
  | none => none
  | some (ip, t2) =>
    let frp := lexFrac t2
    let exp := lexExp frp.2
    if frp.1.isEmpty && exp.2.1.isEmpty then some (.jint (intOfParts neg ip), exp.2.2)
    else some (.jnum (.fin neg ip frp.1 exp.1 exp.2.1), exp.2.2)

/-- Match the JSON number regex `-?(0|[1-9]\d*)(\.\d+)?([eE][-+]?\d+)?` at
the head of `t`. -/
def lexNumber (t : List Char) : Option (Json × List Char) :=
  match t with
  | '-' :: r => lexNumAfterSign true r
  | _ => lexNumAfterSign false t

/-- What the scanner is currently parsing: a value, the members of an
object after `{`, or the items of an array after `[`. -/
inductive PMode where
  | val
  | members
  | items

/-- Scanner result for each mode. -/
inductive PRes where
  | rv (v : Json) (rest : List Char)
  | ri (es : JArr) (rest : List Char)
  | rm (ms : JObj) (rest : List Char)

/-- A leaf token at the head of `t`: one of the keyword constants, or a
number.  Mirrors the constant and number checks of Python's `_scan_once`. -/
def parseJAtom (t : List Char) : Except PyErr PRes :=
  match dropLit (("true").data) t with
  | some r => .ok (.rv (.jbool true) r)
  | none =>
  match dropLit (("false").data) t with
  | some r => .ok (.rv (.jbool false) r)
  | none =>
  match dropLit (("null").data) t with
  | some r => .ok (.rv .jnull r)
  | none =>
  match dropLit (("NaN").data) t with
  | some r => .ok (.rv (.jnum .nan) r)
  | none =>
  match dropLit (("Infinity").data) t with
  | some r => .ok (.rv (.jnum .inf) r)
  | none =>
  match dropLit (("-Infinity").data) t with
  | some r => .ok (.rv (.jnum .ninf) r)
  | none =>
  match lexNumber t with
  | some (v, r) => .ok (.rv v r)
  | none => .error .jsonDecodeError

/-- The recursive scanner of Python's `json.loads` (strict mode), with fuel
for termination.  Every recursive call consumes at least one input
character first, so fuel `length + 1` (as supplied by `jsonLoads`) never
runs out.  The value mode follows `_scan_once`'s shape: look at the first
character, dispatch on `"`/`{`/`[`, otherwise try the constants and the
number regex. -/
def parseJ : Nat → PMode → List Char → Except PyErr PRes
  | 0, _, _ => .error .jsonDecodeError
  | f + 1, .val, t =>
    match t with
    | [] => .error .jsonDecodeError
    | c :: r =>
      if c = '"' then (parseJString r).map (fun p => .rv (.jstr p.1) p.2)
      else if c = '{' then
        (match skipWs r with
         | '}' :: r2 => .ok (.rv (.jobj .onil) r2)
         | t1 =>
           match parseJ f .members t1 with
           | .ok (.rm ms rest) => .ok (.rv (.jobj ms) rest)
           | .ok _ => .error .jsonDecodeError
           | .error e => .error e)
      else if c = '[' then
        (match skipWs r with
         | ']' :: r2 => .ok (.rv (.jarr .anil) r2)
         | t1 =>
           match parseJ f .items t1 with
           | .ok (.ri es rest) => .ok (.rv (.jarr es) rest)
           | .ok _ => .error .jsonDecodeError
           | .error e => .error e)
      else parseJAtom (c :: r)
  | f + 1, .members, t =>
    match t with
    | '"' :: r =>
      (match parseJString r with
       | .error e => .error e
       | .ok (k, r1) =>
         match skipWs r1 with
         | ':' :: r2 =>
           (match parseJ f .val (skipWs r2) with
            | .error e => .error e
            | .ok (.rv v r3) =>
              (match skipWs r3 with
               | ',' :: r4 =>
                 (match parseJ f .members (skipWs r4) with
                  | .ok (.rm ms rest) => .ok (.rm (.ocons k v ms) rest)
                  | .ok _ => .error .jsonDecodeError
                  | .error e => .error e)
               | '}' :: r4 => .ok (.rm (.ocons k v .onil) r4)
               | _ => .error .jsonDecodeError)
            | .ok _ => .error .jsonDecodeError)
         | _ => .error .jsonDecodeError)
    | _ => .error .jsonDecodeError
  | f + 1, .items, t =>
    match parseJ f .val t with
    | .error e => .error e
    | .ok (.rv v r1) =>
      (match skipWs r1 with
       | ',' :: r2 =>
         (match parseJ f .items (skipWs r2) with
          | .ok (.ri es rest) => .ok (.ri (.acons v es) rest)
          | .ok _ => .error .jsonDecodeError
          | .error e => .error e)
       | ']' :: r2 => .ok (.ri (.acons v .anil) r2)
       | _ => .error .jsonDecodeError)
    | .ok _ => .error .jsonDecodeError

/-- `json.loads`: skip leading whitespace, parse one value, require only
whitespace to remain ("Extra data" otherwise). -/
def jsonLoads (t : List Char) : Except PyErr Json :=
  match parseJ (t.length + 1) .val (skipWs t) with
  | .error e => .error e
  | .ok (.rv v rest) => if (skipWs rest).isEmpty then .ok v else .error .jsonDecodeError
  | .ok _ => .error .jsonDecodeError

/-- Python `text.index(c)`: position of the first occurrence, `ValueError`
(modelled as `none`) when absent. -/
def pyIndexChar : List Char → Char → Option Nat
  | [], _ => none
  | c :: r, x => if c = x then some 0 else (pyIndexChar r x).map (· + 1)

/-- Python `text.rfind(c)`: position of the last occurrence, `-1` when absent. -/
def pyRfindChar (t : List Char) (x : Char) : Int :=
  match pyIndexChar t.reverse x with
  | some i => (t.length : Int) - 1 - i
  | none => -1

/-- Python slicing `t[a:b]` for `0 ≤ a` (the only shape the source uses;
a negative `b` can only be `b = 0` here, via `rfind = -1` plus one). -/
def pySlice (t : List Char) (a : Nat) (b : Int) : List Char :=
  (t.drop a).take (b.toNat - a)

/-- The try-block of `parse_model_json_safe` (src/main.py lines 170-174):
slice from the first `{` to one past the last `}` and strict-parse the
slice.  `text.index` raising `ValueError` on a `{`-free input is the
`.error .valueError`; `rfind` returns `-1` when there is no `}`, making
the slice empty. -/
def braceSliceParse (text : List Char) : Except PyErr Json :=
  match pyIndexChar text '{' with
  | none => .error .valueError
  | some start => jsonLoads (pySlice text start (pyRfindChar text '}' + 1))

/-- `parse_model_json_safe` (src/main.py lines 167-181): slice from the
first `{` to the last `}` and strict-parse it; on any failure strict-parse
the whole text; on failure again return the synthesized fallback verdict. -/
def parse_model_json_safe (text : List Char) : Except PyErr Json :=
  match braceSliceParse text with
  | .ok v => .ok v
  | .error _ =>
    match jsonLoads text with
    | .ok v => .ok v
    | .error _ =>
      .ok (.jobj (.ocons (("summary").data) (.jstr (pyStrip text))
            (.ocons (("comments").data) (.jarr .anil)
              (.ocons (("labels").data) (.jarr .anil) .onil))))

/-- Whether a float literal denotes zero (sign and exponent never make a
zero mantissa nonzero). -/
def numIsZero : NumLit → Bool
  | .fin _ ip fr _ _ => ip.all (· = '0') && fr.all (· = '0')
  | .nan => false
  | .inf => false
  | .ninf => false

/-- Python truthiness of a parsed JSON value. -/
def pyTruthy : Json → Bool
  | .jnull => false
  | .jbool b => b
  | .jint n => n ≠ 0
  | .jnum x => !numIsZero x
  | .jstr s => !s.isEmpty
  | .jarr .anil => false
  | .jarr (.acons _ _) => true
  | .jobj .onil => false
  | .jobj (.ocons _ _ _) => true

/-- Python `x or y` on values (short-circuit is irrelevant here: both sides
are effect-free). -/
def pyOr (x y : Json) : Json := if pyTruthy x then x else y

/-- Python `v.get(k)` (default `None`): `AttributeError` unless `v` is a
dict. -/
def pyGet (v : Json) (k : List Char) : Except PyErr Json :=
  match v with
  | .jobj ms => .ok (ms.getD k .jnull)
  | _ => .error .attributeError

/-- Python `v.get(k, d)`: `AttributeError` unless `v` is a dict. -/
def pyGetD (v : Json) (k : List Char) (d : Json) : Except PyErr Json :=
  match v with
  | .jobj ms => .ok (ms.getD k d)
  | _ => .error .attributeError

/-- The distinct keys of an object in first-occurrence order (Python dict
key order), given the keys already seen. -/
def dedupKeys : JObj → List (List Char) → List (List Char)
  | .onil, _ => []
  | .ocons k _ tl, seen =>
    if seen.contains k then dedupKeys tl seen else k :: dedupKeys tl (k :: seen)

def JObj.pyKeys (ms : JObj) : List (List Char) := dedupKeys ms []

/-- Python `for x in v`: lists yield their items, strings their characters
(as 1-character strings), dicts their keys; everything else raises
`TypeError`. -/
def pyIter (v : Json) : Except PyErr (List Json) :=
  match v with
  | .jarr es => .ok es.toList
  | .jstr s => .ok (s.map (fun c => Json.jstr [c]))
  | .jobj ms => .ok (ms.pyKeys.map Json.jstr)
  | _ => .error .typeError

/-- Python `x in stringSet` for a set of strings: strings test membership,
other hashable values are simply not members, unhashable values (list,
dict) raise `TypeError`. -/
def pyIn (x : Json) (set : List (List Char)) : Except PyErr Bool :=
  match x with
  | .jstr s => .ok (set.contains s)
  | .jarr _ => .error .typeError
  | .jobj _ => .error .typeError
  | _ => .ok false

/-- Escaping of one character inside Python `repr` of a string
(simplified: always single-quoted; Python would switch the quote style for
strings containing `'`.  No claim inspects `repr` output). -/
def reprEscChar (c : Char) : List Char :=
  if c = '\\' then ['\\', '\\']
  else if c = '\'' then ['\\', '\'']
  else if c = '\n' then ['\\', 'n']
  else if c = '\r' then ['\\', 'r']
  else if c = '\t' then ['\\', 't']
  else if c.toNat < 32 || c.toNat = 127 then ['\\', 'x', hexDigitChar (c.toNat / 16), hexDigitChar (c.toNat % 16)]
  else [c]

def reprEscStr : List Char → List Char
  | [] => []
  | c :: r => reprEscChar c ++ reprEscStr r

def pyReprStrLit (s : List Char) : List Char := '\'' :: reprEscStr s ++ ['\'']

mutual
/-- Python `repr` of a parsed JSON value, as interpolated by f-strings for
non-string values.  Floats are approximated by their literal (Python would
re-format the float); dict duplicate keys are kept (Python's dict would
have collapsed them at parse time).  No claim inspects these outputs. -/
def pyRepr : Json → List Char
  | .jnull => ("None").data
  | .jbool true => ("True").data
  | .jbool false => ("False").data
  | .jint n => intRepr n
  | .jnum x => dumpNum x
  | .jstr s => pyReprStrLit s
  | .jarr es => '[' :: pyReprArr es ++ [']']
  | .jobj ms => '\x7b' :: pyReprObj ms ++ ['\x7d']
def pyReprArr : JArr → List Char
  | .anil => []
  | .acons x .anil => pyRepr x
  | .acons x (.acons y tl) => pyRepr x ++ ',' :: ' ' :: pyReprArr (.acons y tl)
def pyReprObj : JObj → List Char
  | .onil => []
  | .ocons k v .onil => pyReprStrLit k ++ ':' :: ' ' :: pyRepr v
  | .ocons k v (.ocons k2 v2 tl) =>
    pyReprStrLit k ++ ':' :: ' ' :: pyRepr v ++ ',' :: ' ' :: pyReprObj (.ocons k2 v2 tl)
end

/-- Python `str(x)` as used by f-string interpolation. -/
def pyStr : Json → List Char
  | .jstr s => s
  | v => pyRepr v

/-- `str(e)` for a caught exception, as interpolated into error payloads. -/
def pyErrStr : PyErr → List Char
  | .httpError d => d
  | .valueError => ("ValueError").data
  | .typeError => ("TypeError").data
  | .attributeError => ("AttributeError").data
  | .jsonDecodeError => ("JSONDecodeError").data
  | .runtimeError => ("OPENAI_API_KEY not set in environment").data

/-- The two GitHub read endpoints `fetch_pr_and_files` hits (src/main.py
lines 103-104), with the forwarded token. -/
inductive GHGet where
  | pulls (owner repo : List Char) (number : Nat) (token : Option (List Char))
  | pullFiles (owner repo : List Char) (number : Nat) (token : Option (List Char))

/-- The two GitHub write endpoints `post_review_and_labels` hits
(src/main.py lines 200 and 208), with their payloads and the forwarded
token. -/
inductive GHCall where
  | postReview (owner repo : List Char) (number : Nat) (body : List Char) (token : Option (List Char))
  | postLabels (owner repo : List Char) (number : Nat) (labels : List Json) (token : Option (List Char))

def GHCall.isLabelsPost : GHCall → Bool
  | .postLabels _ _ _ _ _ => true
  | .postReview _ _ _ _ _ => false

/-- One fetched changed-file record as built on src/main.py line 115. -/
structure ChangedFileRec where
  filename : Json
  status : Json
  changes : Json
  contents : List Char

/-- The fixed placeholder for a file whose raw contents could not be
fetched (src/main.py line 112). -/
def failedFetchPlaceholder : List Char := ("<<failed to fetch file contents>>").data

/-- The truncation marker appended to over-long file contents
(src/main.py line 114). -/
def truncationMarker : List Char := ("\n\n...TRUNCATED...").data

/-- Lines 113-114: truncate contents longer than the cap and append the
marker. -/
def truncateContents (c : List Char) (max_chars : Nat) : List Char :=
  if c.length > max_chars then c.take max_chars ++ truncationMarker else c

/-- Python `v[:n]` on the JSON value returned for the file list: works on
lists and strings, raises `TypeError` otherwise. -/
def pySliceSeq (v : Json) (n : Nat) : Except PyErr (List Json) :=
  match v with
  | .jarr es => .ok (es.toList.take n)
  | .jstr s => .ok ((s.map (fun c => Json.jstr [c])).take n)
  | _ => .error .typeError

/-- The per-file body of the loop in src/main.py lines 106-115: read the
metadata fields, fetch the raw contents (any exception is caught and
replaced by the placeholder), truncate. -/
def fetchOne (rawGet : Json → Except PyErr (List Char)) (max_chars : Nat) (f : Json) :
    Except PyErr ChangedFileRec := do
  let filename ← pyGetD f (("filename").data) .jnull
  let raw_url ← pyGetD f (("raw_url").data) .jnull
  let file_contents :=
    match rawGet raw_url with
    | .ok s => s
    | .error _ => failedFetchPlaceholder
  let status ← pyGetD f (("status").data) .jnull
  let changes ← pyGetD f (("changes").data) .jnull
  pure (ChangedFileRec.mk filename status changes (truncateContents file_contents max_chars))

/-- `fetch_pr_and_files` (src/main.py lines 102-116).  `ghGet` stands for
`github_get` and `rawGet` for `requests.get(raw_url).text`; both are
external collaborators whose outcomes are inputs here.  The source's
default arguments are `max_files = 5`, `max_chars_per_file = 2000`. -/
def fetch_pr_and_files (ghGet : GHGet → Except PyErr Json)
    (rawGet : Json → Except PyErr (List Char)) (owner repo : List Char) (pr_number : Nat)
    (token : Option (List Char)) (max_files : Nat) (max_chars_per_file : Nat) :
    Except PyErr (Json × List ChangedFileRec) := do
  let pr ← ghGet (.pulls owner repo pr_number token)
  let files ← ghGet (.pullFiles owner repo pr_number token)
  let fl ← pySliceSeq files max_files
  let selected ← fl.mapM (fetchOne rawGet max_chars_per_file)
  pure (pr, selected)

/-- The fixed system message of `build_prompt` (src/main.py lines 127-130). -/
def promptSystemText : List Char :=
  ("You are a senior software engineer and security expert. Produce a clear, concise review of the pull request. Return output as JSON with keys: summary (short), comments (list of \x7bpath,comment\x7d), labels (list of strings). Do not add any extra text outside the JSON.").data

/-- `build_prompt` (src/main.py lines 119-148): two-message prompt with the
PR metadata and file excerpts interpolated. -/
def build_prompt (pr : Json) (files : List ChangedFileRec) :
    Except PyErr (List (List Char × List Char)) := do
  let title ← pyGetD pr (("title").data) (.jstr [])
  let body := pyOr (← pyGet pr (("body").data)) (.jstr [])
  let author ← pyGet (← pyGetD pr (("user").data) (.jobj .onil)) (("login").data)
  let branch ← pyGet (← pyGetD pr (("head").data) (.jobj .onil)) (("ref").data)
  let base ← pyGet (← pyGetD pr (("base").data) (.jobj .onil)) (("ref").data)
  let header :=
    ("\nPR title: ").data ++ pyStr title
    ++ ("\nAuthor: ").data ++ pyStr author
    ++ ("\nBranch: ").data ++ pyStr branch ++ (" -> ").data ++ pyStr base
    ++ ("\n\nDescription:\n").data ++ pyStr body
    ++ ("\n\nChanged files (up to ").data ++ natDigits files.length ++ ("):\n").data
  let withFiles := files.foldl (fun acc f =>
    acc ++ ("\n---\nFile: ").data ++ pyStr f.filename
    ++ (" (status: ").data ++ pyStr f.status
    ++ (", changes: ").data ++ pyStr f.changes ++ (")\n").data
    ++ f.contents ++ ['\n']) header
  let user_text := withFiles
    ++ ("\nInstructions:\n- Review for correctness, code logic, security issues, architecture/design concerns, and potential build/test problems.\n- Produce up to 6 actionable comments.\n- Suggest labels chosen from: security-issue, code-logic-issue, build-issue, docs-issue, style-issue, perf-issue, other.\n- Output ONLY valid JSON.\n").data
  pure [(("system").data, promptSystemText), (("user").data, user_text)]

/-- `call_openai_review` (src/main.py lines 155-165): fails when no OpenAI
key is configured, otherwise defers to the completion service (`complete`),
whose outcome is an input. -/
def call_openai_review (openaiKeySet : Bool)
    (complete : List (List Char × List Char) → Except PyErr (List Char))
    (prompt_messages : List (List Char × List Char)) : Except PyErr (List Char) :=
  if openaiKeySet then complete prompt_messages else .error .runtimeError

/-- The fixed label allow-list (src/main.py line 205). -/
def allowedLabels : List (List Char) :=
  [("security-issue").data, ("code-logic-issue").data, ("build-issue").data,
   ("docs-issue").data, ("style-issue").data, ("perf-issue").data, ("other").data]

/-- One comment block of the review body (src/main.py lines 190-193). -/
def commentBlock (c : Json) : Except PyErr (List Char) := do
  let path ← pyGetD c (("path").data) (.jstr (("<unknown>").data))
  let comment1 ← pyGetD c (("comment").data) .jnull
  let comment2 ← pyGetD c (("message").data) .jnull
  let comment := pyOr comment1 (pyOr comment2 (.jstr []))
  pure (("\n- ").data ++ pyStr path ++ (": ").data ++ pyStr comment ++ ['\n'])

/-- The review body assembly of `post_review_and_labels`
(src/main.py lines 186-193): summary and comments read with `or`-defaults,
comments iterated. -/
def bodyOf (review_json : Json) : Except PyErr (List Char) := do
  let summary := pyOr (← pyGet review_json (("summary").data)) (.jstr [])
  let comments := pyOr (← pyGet review_json (("comments").data)) (.jarr .anil)
  let items ← pyIter comments
  let blocks ← items.mapM commentBlock
  pure (("Automated review summary:\n\n").data ++ pyStr summary
    ++ ("\n\nDetailed comments:\n").data ++ blocks.flatten)

/-- The label sanitization of `post_review_and_labels`
(src/main.py lines 203-206): read `labels` with the `or`-default and keep
the elements contained in the allow-list. -/
def labelsToAdd (review_json : Json) : Except PyErr (List Json) := do
  let labels := pyOr (← pyGet review_json (("labels").data)) (.jarr .anil)
  let items ← pyIter labels
  items.foldlM (fun acc l => do
    let b ← pyIn l allowedLabels
    pure (if b then acc ++ [l] else acc)) []

/-- `post_review_and_labels` (src/main.py lines 184-212).  `gh` stands for
`github_post`; the returned list is the ordered trace of write calls
actually issued, and the `Except` is the function's own outcome
(`{'review': ..., 'labels': ...}` on success). -/
def post_review_and_labels (gh : GHCall → Except PyErr Json) (owner repo : List Char)
    (pr_number : Nat) (token : Option (List Char)) (review_json : Json) :
    List GHCall × Except PyErr Json :=
  match bodyOf review_json with
  | .error e => ([], .error e)
  | .ok body =>
    let call1 := GHCall.postReview owner repo pr_number body token
    match gh call1 with
    | .error e => ([call1], .error e)
    | .ok review_resp =>
      match labelsToAdd review_json with
      | .error e => ([call1], .error e)
      | .ok to_add =>
        if to_add.isEmpty then
          ([call1], .ok (.jobj (.ocons (("review").data) review_resp
            (.ocons (("labels").data) .jnull .onil))))
        else
          let call2 := GHCall.postLabels owner repo pr_number to_add token
          match gh call2 with
          | .error e => ([call1, call2], .error e)
          | .ok labels_resp =>
            ([call1, call2], .ok (.jobj (.ocons (("review").data) review_resp
              (.ocons (("labels").data) labels_resp .onil))))

/-- An HTTP response of the Flask route: the JSON body and the status code. -/
structure HttpResp where
  body : Json
  status : Nat

/-- The external collaborators of one request, with their outcomes. -/
structure Deps where
  ghGet : GHGet → Except PyErr Json
  rawGet : Json → Except PyErr (List Char)
  openaiKeySet : Bool
  complete : List (List Char × List Char) → Except PyErr (List Char)
  gh : GHCall → Except PyErr Json

/-- Python falsiness of `request.form.get(...)`: missing or empty string. -/
def isFalsyStrOpt : Option (List Char) → Bool
  | none => true
  | some s => s.isEmpty

/-- Python `form_token or GITHUB_TOKEN` on optional strings. -/
def pyOrOpt (a b : Option (List Char)) : Option (List Char) :=
  if isFalsyStrOpt a then b else a

def errResp (msg : List Char) (st : Nat) : HttpResp :=
  HttpResp.mk (.jobj (.ocons (("error").data) (.jstr msg) .onil)) st

/-- The `/review` route (src/main.py lines 221-253).  Only
`requests.HTTPError` is caught around the GitHub calls and only `Exception`
(everything) around the OpenAI call, so any other exception propagates as
`.error` (a Flask 500 crash).  The returned trace lists the GitHub write
calls issued. -/
def review (deps : Deps) (pr_url : Option (List Char)) (form_token : Option (List Char))
    (GITHUB_TOKEN : Option (List Char)) : Except PyErr (HttpResp × List GHCall) :=
  let token := pyOrOpt form_token GITHUB_TOKEN
  match pr_url with
  | none => .ok (errResp (("pr_url is required").data) 400, [])
  | some u =>
    if u.isEmpty then .ok (errResp (("pr_url is required").data) 400, [])
    else
      match parse_pr_url u with
      | none => .ok (errResp (("Invalid GitHub PR URL. Expected: https://github.com/owner/repo/pull/123").data) 400, [])
      | some (owner, repo, pr_number) =>
        if isFalsyStrOpt token then
          .ok (errResp (("No GitHub token provided. Set GITHUB_TOKEN env var or provide token in form.").data) 400, [])
        else
          match fetch_pr_and_files deps.ghGet deps.rawGet owner repo pr_number token 5 2000 with
          | .error (.httpError d) =>
            .ok (HttpResp.mk (.jobj (.ocons (("error").data) (.jstr (("Failed to fetch PR from GitHub").data))
              (.ocons (("details").data) (.jstr d) .onil))) 400, [])
          | .error e => .error e
          | .ok (pr, files) =>
            match build_prompt pr files with
            | .error e => .error e
            | .ok prompt =>
              match call_openai_review deps.openaiKeySet deps.complete prompt with
              | .error e =>
                .ok (HttpResp.mk (.jobj (.ocons (("error").data) (.jstr (("OpenAI review failed").data))
                  (.ocons (("details").data) (.jstr (pyErrStr e)) .onil))) 500, [])
              | .ok model_text =>
                match parse_model_json_safe model_text with
                | .error e => .error e
                | .ok review_json =>
                  let pr_res := post_review_and_labels deps.gh owner repo pr_number token review_json
                  match pr_res.2 with
                  | .error (.httpError d) =>
                    .ok (HttpResp.mk (.jobj (.ocons (("error").data) (.jstr (("Failed to post review/labels to GitHub").data))
                      (.ocons (("details").data) (.jstr d)
                        (.ocons (("model_output").data) review_json .onil)))) 500, pr_res.1)
                  | .error e => .error e
                  | .ok gh_resp =>
                    .ok (HttpResp.mk (.jobj (.ocons (("status").data) (.jstr (("success").data))
                      (.ocons (("model_output").data) review_json
                        (.ocons (("github_response").data) gh_resp .onil)))) 200, pr_res.1)

/-- A continuation on which no JSON token scanner keeps consuming: empty, or
starting with a separator or closer.  Inside a serialized document every
dumped value is followed by such a continuation. -/
def guardHead (r : List Char) : Bool :=
  match r with
  | [] => true
  | c :: _ => c = ',' || c = ']' || c = '}'

/-- A sample well-formed verdict object with exactly the three expected keys. -/
def sampleMs : JObj :=
  .ocons (("summary").data) (.jstr (("ok").data))
    (.ocons (("comments").data) (.jarr .anil)
      (.ocons (("labels").data) (.jarr .anil) .onil))

example : jsonLoads (("\x7b\"a\": [1, true, null]\x7d").data) =
    .ok (.jobj (.ocons (("a").data)
      (.jarr (.acons (.jint 1) (.acons (.jbool true) (.acons .jnull .anil)))) .onil)) := rfl

example : jsonLoads (("Sorry, I cannot comply.").data) = .error .jsonDecodeError := rfl

example : jsonLoads (("1.5e-3").data) =
    .ok (.jnum (.fin false ['1'] ['5'] true ['3'])) := rfl

example : jsonLoads (("01").data) = .error .jsonDecodeError := rfl

example : jsonLoads (("\"a\\nb\"").data) = .ok (.jstr (['a', '\n', 'b'])) := rfl

example : parse_model_json_safe (("Sorry, I cannot comply.").data) =
    .ok (.jobj (.ocons (("summary").data) (.jstr (("Sorry, I cannot comply.").data))
      (.ocons (("comments").data) (.jarr .anil)
        (.ocons (("labels").data) (.jarr .anil) .onil)))) := rfl

example : parse_model_json_safe (("noise \x7b\"summary\": \"ok\"\x7d trailing").data) =
    .ok (.jobj (.ocons (("summary").data) (.jstr (("ok").data)) .onil)) := rfl

example : labelsToAdd (.jobj (.ocons (("labels").data)
    (.jarr (.acons (.jstr (("security-issue").data))
      (.acons (.jstr (("made-up-label").data))
        (.acons (.jstr (("perf-issue").data)) .anil)))) .onil)) =
    .ok [.jstr (("security-issue").data), .jstr (("perf-issue").data)] := rfl

example : (post_review_and_labels (fun _ => .ok .jnull) (("o").data) (("r").data) 1 none
    (.jobj (.ocons (("comments").data) (.jint 5) .onil))).2 = .error .typeError := rfl

example : bodyOf (.jobj .onil) =
    .ok (("Automated review summary:\n\n\n\nDetailed comments:\n").data) := rfl

example : parse_pr_url (("see https://github.com/acme/widgets/pull/42 for details").data) =
    some ((("acme").data, ("widgets").data, 42)) := rfl

example : parse_pr_url (("https://gitlab.com/acme/widgets/pull/42").data) = none := rfl

example : parse_pr_url (("  http://github.com/a/b/pull/7").data) =
    some ((("a").data, ("b").data, 7)) := rfl

example : parse_pr_url (("https://github.com/a/b/c/pull/7").data) = none := rfl

example : hasPullDigit (("hello world").data) = false := rfl

example : hasPullDigit (("x /pull/9").data) = true := rfl

/-! ## Claim theorems -/

@[simp]
theorem exc_bind_ok {α β : Type} (a : α) (f : α → Except PyErr β) :
    (Except.ok a : Except PyErr α) >>= f = f a := rfl

@[simp]
theorem exc_bind_error {α β : Type} (e : PyErr) (f : α → Except PyErr β) :
    (Except.error e : Except PyErr α) >>= f = .error e := rfl

@[simp]
theorem exc_pure {α : Type} (a : α) : (pure a : Except PyErr α) = .ok a := rfl

@[simp]
theorem exc_map_ok {α β : Type} (a : α) (f : α → β) :
    (Except.ok a : Except PyErr α).map f = .ok (f a) := rfl

@[simp]
theorem exc_map_error {α β : Type} (e : PyErr) (f : α → β) :
    (Except.error e : Except PyErr α).map f = .error e := rfl

/-- C1: the Response Reconciler is total — for every input string,
`parse_model_json_safe` returns a best-effort verdict and never raises
(in the embedding: it always lands in `.ok`, never in `.error`, even
though every stage it runs is exception-capable). -/
theorem C1_parse_model_json_safe_total (text : List Char) :
    ∃ v, parse_model_json_safe text = .ok v := by
  unfold parse_model_json_safe
  cases h1 : braceSliceParse text with
  | ok v => exact ⟨v, rfl⟩
  | error e1 =>
    cases h2 : jsonLoads text with
    | ok v => exact ⟨v, rfl⟩
    | error e2 => exact ⟨_, rfl⟩

/-- C3: whenever both the brace-bounded slice parse and the whole-text
parse fail, `parse_model_json_safe` returns the synthesized verdict
`{summary: input stripped of surrounding whitespace, comments: [],
labels: []}`. -/
theorem C3_total_failure_fallback (text : List Char) (e1 e2 : PyErr)
    (h1 : braceSliceParse text = .error e1) (h2 : jsonLoads text = .error e2) :
    parse_model_json_safe text =
      .ok (.jobj (.ocons (("summary").data) (.jstr (pyStrip text))
        (.ocons (("comments").data) (.jarr .anil)
          (.ocons (("labels").data) (.jarr .anil) .onil)))) := by
  simp only [parse_model_json_safe, h1, h2]

/-- Witness for C3 at the spec's own example, the literal text
`"Sorry, I cannot comply."` (no braces, not valid JSON). -/
theorem C3_total_failure_fallback_witness :
    braceSliceParse (("Sorry, I cannot comply.").data) = .error .valueError
    ∧ jsonLoads (("Sorry, I cannot comply.").data) = .error .jsonDecodeError
    ∧ parse_model_json_safe (("Sorry, I cannot comply.").data) =
      .ok (.jobj (.ocons (("summary").data) (.jstr (("Sorry, I cannot comply.").data))
        (.ocons (("comments").data) (.jarr .anil)
          (.ocons (("labels").data) (.jarr .anil) .onil)))) :=
  ⟨rfl, rfl, C3_total_failure_fallback (("Sorry, I cannot comply.").data) _ _ rfl rfl⟩

/-- C9 counterexample: the claim says any non-object, non-array shape for
`comments` is treated as absent and the body assembly never raises; but on
the parsed verdict `{"comments": 5}` the body loop `for c in comments`
raises `TypeError` (5 is truthy, so the `or []` default does not apply),
and `post_review_and_labels` aborts before any call is posted. -/
theorem C9_counterexample :
    (post_review_and_labels (fun _ => .ok .jnull) (("o").data) (("r").data) 1 none
      (.jobj (.ocons (("comments").data) (.jint 5) .onil))).2 = .error .typeError := rfl

/-- C9 (amended): after a successful parse the fields are read with
Python-falsiness defaults: a missing (or `None`, or otherwise falsy)
`summary` is read as the empty string and missing/falsy `comments` and
`labels` as empty sequences — but a truthy non-sequence shape is NOT
treated as absent (see the counterexample). -/
theorem C9_permissive_defaults (ms : JObj)
    (hs : pyTruthy (ms.getD (("summary").data) .jnull) = false)
    (hc : pyTruthy (ms.getD (("comments").data) .jnull) = false)
    (hl : pyTruthy (ms.getD (("labels").data) .jnull) = false) :
    bodyOf (.jobj ms) = .ok (("Automated review summary:\n\n\n\nDetailed comments:\n").data)
    ∧ labelsToAdd (.jobj ms) = .ok [] := by
  constructor
  · simp only [bodyOf, pyGet, exc_bind_ok, pyOr, hs, hc, Bool.false_eq_true, if_false,
      pyIter, JArr.toList, pyStr, exc_pure]
    rfl
  · simp only [labelsToAdd, pyGet, exc_bind_ok, pyOr, hl, Bool.false_eq_true, if_false,
      pyIter, JArr.toList, exc_pure]
    rfl

/-- Witness for C9's amended theorem at the empty verdict object. -/
theorem C9_permissive_defaults_witness :
    bodyOf (.jobj .onil) = .ok (("Automated review summary:\n\n\n\nDetailed comments:\n").data)
    ∧ labelsToAdd (.jobj .onil) = .ok [] :=
  C9_permissive_defaults .onil rfl rfl rfl

/-- The step function of the label-filtering fold (the lambda on
src/main.py line 206, as modelled in `labelsToAdd`). -/
def labelFoldFun : List Json → Json → Except PyErr (List Json) := fun acc l => do
  let b ← pyIn l allowedLabels
  pure (if b then acc ++ [l] else acc)

theorem labelFoldFun_str_true (acc : List Json) (s : List Char)
    (h : allowedLabels.contains s = true) :
    labelFoldFun acc (Json.jstr s) = .ok (acc ++ [Json.jstr s]) := by
  have hmem : s ∈ allowedLabels := by simpa using h
  simp [labelFoldFun, pyIn, hmem]

theorem labelFoldFun_str_false (acc : List Json) (s : List Char)
    (h : allowedLabels.contains s = false) :
    labelFoldFun acc (Json.jstr s) = .ok acc := by
  have hmem : s ∉ allowedLabels := by simpa using h
  simp [labelFoldFun, pyIn, hmem]

/-- The label-filtering fold evaluated on a list of strings: it is exactly
the order- and multiplicity-preserving `List.filter` by allow-list
membership. -/
theorem labels_fold_on_strings (ls : List (List Char)) :
    ∀ acc : List Json,
    List.foldlM labelFoldFun acc (ls.map Json.jstr)
    = .ok (acc ++ (ls.filter (fun s => allowedLabels.contains s)).map Json.jstr) := by
  induction ls with
  | nil => intro acc; simp
  | cons s tl ih =>
    intro acc
    rw [List.map_cons, List.foldlM_cons]
    cases hcon : allowedLabels.contains s with
    | false =>
      have hmem : s ∉ allowedLabels := by simpa using hcon
      rw [labelFoldFun_str_false acc s hcon, exc_bind_ok, ih acc]
      simp [List.filter_cons, hmem]
    | true =>
      have hmem : s ∈ allowedLabels := by simpa using hcon
      rw [labelFoldFun_str_true acc s hcon, exc_bind_ok, ih (acc ++ [Json.jstr s])]
      simp [List.filter_cons, hmem]

theorem toList_ofList (l : List Json) : (JArr.ofList l).toList = l := by
  induction l with
  | nil => rfl
  | cons x xs ih => simp [JArr.ofList, JArr.toList, ih]

/-- C10: the label filter is an order- and multiplicity-preserving list
filter, not a set intersection — for a verdict whose `labels` field is a
list of strings, `to_add` is exactly the subsequence of that list whose
elements belong to the allow-list (so duplicates of an allowed label are
kept, in their original order), and in particular a sublist of the
original. -/
theorem C10_label_filter_is_list_filter (ms : JObj) (ls : List (List Char))
    (h : ms.getD (("labels").data) .jnull = .jarr (JArr.ofList (ls.map Json.jstr))) :
    labelsToAdd (.jobj ms)
      = .ok ((ls.filter (fun s => allowedLabels.contains s)).map Json.jstr)
    ∧ ((ls.filter (fun s => allowedLabels.contains s)).Sublist ls) := by
  refine ⟨?_, List.filter_sublist ls⟩
  have hiter : pyOr (.jarr (JArr.ofList (ls.map Json.jstr))) (.jarr .anil)
      = .jarr (JArr.ofList (ls.map Json.jstr)) := by
    cases ls with
    | nil => rfl
    | cons x xs => rfl
  simp only [labelsToAdd, pyGet, h, exc_bind_ok, hiter, pyIter, toList_ofList]
  simpa using labels_fold_on_strings ls []

/-- Witness for C10 with a duplicated allowed label and an unknown label:
both copies of `perf-issue` are kept, in order. -/
theorem C10_label_filter_is_list_filter_witness :
    labelsToAdd (.jobj (.ocons (("labels").data)
      (.jarr (.acons (.jstr (("perf-issue").data))
        (.acons (.jstr (("made-up").data))
          (.acons (.jstr (("perf-issue").data)) .anil)))) .onil))
    = .ok [.jstr (("perf-issue").data), .jstr (("perf-issue").data)] := by
  have h := C10_label_filter_is_list_filter
    (.ocons (("labels").data)
      (.jarr (.acons (.jstr (("perf-issue").data))
        (.acons (.jstr (("made-up").data))
          (.acons (.jstr (("perf-issue").data)) .anil)))) .onil)
    [("perf-issue").data, ("made-up").data, ("perf-issue").data] rfl
  exact h.1

/-- Anything the label fold lets through came in as an allow-listed string
(or was already in the accumulator). -/
theorem labelFoldFun_other (acc : List Json) (l : Json)
    (h1 : ∀ s, l ≠ Json.jstr s) (h2 : ∀ es, l ≠ Json.jarr es) (h3 : ∀ ms, l ≠ Json.jobj ms) :
    labelFoldFun acc l = .ok acc := by
  cases l with
  | jstr s => exact absurd rfl (h1 s)
  | jarr es => exact absurd rfl (h2 es)
  | jobj ms => exact absurd rfl (h3 ms)
  | jnull => simp [labelFoldFun, pyIn]
  | jbool b => simp [labelFoldFun, pyIn]
  | jint n => simp [labelFoldFun, pyIn]
  | jnum x => simp [labelFoldFun, pyIn]

theorem labels_fold_mem (items : List Json) : ∀ (acc res : List Json),
    List.foldlM labelFoldFun acc items = .ok res →
    ∀ x ∈ res, x ∈ acc ∨ ∃ s, x = Json.jstr s ∧ s ∈ allowedLabels := by
  induction items with
  | nil =>
    intro acc res h x hx
    simp only [List.foldlM_nil, exc_pure] at h
    injection h with h
    exact Or.inl (h ▸ hx)
  | cons l tl ih =>
    intro acc res h x hx
    rw [List.foldlM_cons] at h
    cases l with
    | jstr s =>
      cases hcon : allowedLabels.contains s with
      | true =>
        rw [labelFoldFun_str_true acc s hcon, exc_bind_ok] at h
        rcases ih _ res h x hx with hacc | hgood
        · rcases List.mem_append.mp hacc with h1 | h2
          · exact Or.inl h1
          · right
            refine ⟨s, by simpa using h2, ?_⟩
            simpa using hcon
        · exact Or.inr hgood
      | false =>
        rw [labelFoldFun_str_false acc s hcon, exc_bind_ok] at h
        exact ih _ res h x hx
    | jnull =>
      rw [labelFoldFun_other acc _ (by intro s h; cases h) (by intro es h; cases h)
        (by intro ms h; cases h), exc_bind_ok] at h
      exact ih _ res h x hx
    | jbool b2 =>
      rw [labelFoldFun_other acc _ (by intro s h; cases h) (by intro es h; cases h)
        (by intro ms h; cases h), exc_bind_ok] at h
      exact ih _ res h x hx
    | jint n =>
      rw [labelFoldFun_other acc _ (by intro s h; cases h) (by intro es h; cases h)
        (by intro ms h; cases h), exc_bind_ok] at h
      exact ih _ res h x hx
    | jnum y =>
      rw [labelFoldFun_other acc _ (by intro s h; cases h) (by intro es h; cases h)
        (by intro ms h; cases h), exc_bind_ok] at h
      exact ih _ res h x hx
    | jarr es =>
      rw [show labelFoldFun acc (Json.jarr es) = .error .typeError from rfl, exc_bind_error] at h
      exact absurd h (by simp)
    | jobj ms2 =>
      rw [show labelFoldFun acc (Json.jobj ms2) = .error .typeError from rfl, exc_bind_error] at h
      exact absurd h (by simp)

/-- Everything `labelsToAdd` returns is an allow-listed string. -/
theorem labelsToAdd_subset (rj : Json) (ts : List Json) (h : labelsToAdd rj = .ok ts) :
    ∀ x ∈ ts, ∃ s, x = Json.jstr s ∧ s ∈ allowedLabels := by
  intro x hx
  unfold labelsToAdd at h
  cases hg : pyGet rj (("labels").data) with
  | error e => rw [hg] at h; simp at h
  | ok lv =>
    rw [hg] at h
    simp only [exc_bind_ok] at h
    cases hi : pyIter (pyOr lv (.jarr .anil)) with
    | error e => rw [hi] at h; simp at h
    | ok items =>
      rw [hi] at h
      simp only [exc_bind_ok] at h
      rcases labels_fold_mem items [] ts h x hx with h0 | hgood
      · simp at h0
      · exact hgood

/-- C4: the labels written to the platform are always allow-listed —
whatever list the filter produced consists only of allow-list strings
(unknown labels having been dropped without error), the label-posting call
carries exactly that list, and when the filtered list is empty the
label-posting call is not made at all and its receipt is `None`. -/
theorem C4_label_allow_listing (gh : GHCall → Except PyErr Json) (owner repo : List Char)
    (pr_number : Nat) (token : Option (List Char)) (rj : Json) (ts : List Json)
    (b : List Char) (resp : Json)
    (hts : labelsToAdd rj = .ok ts)
    (hb : bodyOf rj = .ok b)
    (hgh : gh (GHCall.postReview owner repo pr_number b token) = .ok resp) :
    (∀ x ∈ ts, ∃ s, x = Json.jstr s ∧ s ∈ allowedLabels)
    ∧ (ts = [] → post_review_and_labels gh owner repo pr_number token rj
        = ([GHCall.postReview owner repo pr_number b token],
           .ok (.jobj (.ocons (("review").data) resp
             (.ocons (("labels").data) .jnull .onil)))))
    ∧ (ts ≠ [] → (post_review_and_labels gh owner repo pr_number token rj).1
        = [GHCall.postReview owner repo pr_number b token,
           GHCall.postLabels owner repo pr_number ts token]) := by
  refine ⟨labelsToAdd_subset rj ts hts, ?_, ?_⟩
  · rintro rfl
    simp [post_review_and_labels, hb, hgh, hts]
  · intro hne
    cases ts with
    | nil => exact absurd rfl hne
    | cons t0 ttl =>
      simp only [post_review_and_labels, hb, hgh, hts, List.isEmpty_cons,
        Bool.false_eq_true, if_false]
      cases hgh2 : gh (GHCall.postLabels owner repo pr_number (t0 :: ttl) token) with
      | error e => simp [hgh2]
      | ok resp2 => simp [hgh2]

/-- Witness for C4 at the spec's own example labels
`["security-issue", "made-up-label", "perf-issue"]`. -/
theorem C4_label_allow_listing_witness :
    (∀ x ∈ ([Json.jstr (("security-issue").data), Json.jstr (("perf-issue").data)]),
      ∃ s, x = Json.jstr s ∧ s ∈ allowedLabels)
    ∧ ((post_review_and_labels (fun _ => .ok .jnull) (("o").data) (("r").data) 1 none
        (.jobj (.ocons (("labels").data)
          (.jarr (.acons (.jstr (("security-issue").data))
            (.acons (.jstr (("made-up-label").data))
              (.acons (.jstr (("perf-issue").data)) .anil)))) .onil))).1
      = [GHCall.postReview (("o").data) (("r").data) 1
           (("Automated review summary:\n\n\n\nDetailed comments:\n").data) none,
         GHCall.postLabels (("o").data) (("r").data) 1
           [Json.jstr (("security-issue").data), Json.jstr (("perf-issue").data)] none]) := by
  have h := C4_label_allow_listing (fun _ => .ok .jnull) (("o").data) (("r").data) 1 none
    (.jobj (.ocons (("labels").data)
      (.jarr (.acons (.jstr (("security-issue").data))
        (.acons (.jstr (("made-up-label").data))
          (.acons (.jstr (("perf-issue").data)) .anil)))) .onil))
    ([Json.jstr (("security-issue").data), Json.jstr (("perf-issue").data)])
    (("Automated review summary:\n\n\n\nDetailed comments:\n").data) .jnull rfl rfl rfl
  exact ⟨h.1, h.2.2 (by simp)⟩

/-- The effective raw contents of one file: the fetched text, or the fixed
placeholder when the fetch raised (src/main.py lines 109-112). -/
def rawOrPlaceholder (rawGet : Json → Except PyErr (List Char)) (ms : JObj) : List Char :=
  match rawGet (ms.getD (("raw_url").data) .jnull) with
  | .ok s => s
  | .error _ => failedFetchPlaceholder

/-- The `ChangedFileRec` the fetch loop builds for a file dict. -/
def entryOf (rawGet : Json → Except PyErr (List Char)) (max_chars : Nat) (ms : JObj) :
    ChangedFileRec :=
  ChangedFileRec.mk (ms.getD (("filename").data) .jnull) (ms.getD (("status").data) .jnull)
    (ms.getD (("changes").data) .jnull)
    (truncateContents (rawOrPlaceholder rawGet ms) max_chars)

/-- `entryOf` lifted to arbitrary JSON values (only the dict case is ever
reached under the hypotheses used below). -/
def entryOfJson (rawGet : Json → Except PyErr (List Char)) (max_chars : Nat) (f : Json) :
    ChangedFileRec :=
  match f with
  | .jobj ms => entryOf rawGet max_chars ms
  | _ => ChangedFileRec.mk .jnull .jnull .jnull []

theorem fetchOne_obj (rawGet : Json → Except PyErr (List Char)) (mc : Nat) (ms : JObj) :
    fetchOne rawGet mc (.jobj ms) = .ok (entryOf rawGet mc ms) := by
  unfold fetchOne entryOf rawOrPlaceholder
  cases hr : rawGet (ms.getD (("raw_url").data) .jnull) with
  | ok s => simp [pyGetD, hr]
  | error e => simp [pyGetD, hr]

theorem mapM_fetchOne (rawGet : Json → Except PyErr (List Char)) (mc : Nat) :
    ∀ fs : List Json, (∀ f ∈ fs, ∃ ms, f = .jobj ms) →
    List.mapM (fetchOne rawGet mc) fs = .ok (fs.map (entryOfJson rawGet mc)) := by
  intro fs
  induction fs with
  | nil => intro _; rfl
  | cons f tl ih =>
    intro h
    obtain ⟨ms, rfl⟩ := h f (by simp)
    rw [List.mapM_cons, fetchOne_obj, exc_bind_ok, ih (fun g hg => h g (by simp [hg])),
      exc_bind_ok]
    simp [entryOfJson]

/-- Closed form of a successful fetch: the selected entries are exactly the
per-file records for the first `max_files` files. -/
theorem fetch_pr_and_files_ok (ghGet : GHGet → Except PyErr Json)
    (rawGet : Json → Except PyErr (List Char)) (owner repo : List Char) (n : Nat)
    (token : Option (List Char)) (mf mc : Nat) (pr : Json) (es : JArr)
    (hp : ghGet (.pulls owner repo n token) = .ok pr)
    (hf : ghGet (.pullFiles owner repo n token) = .ok (.jarr es))
    (hobj : ∀ f ∈ es.toList.take mf, ∃ ms, f = .jobj ms) :
    fetch_pr_and_files ghGet rawGet owner repo n token mf mc
      = .ok (pr, (es.toList.take mf).map (entryOfJson rawGet mc)) := by
  unfold fetch_pr_and_files
  rw [hp, exc_bind_ok, hf, exc_bind_ok]
  simp only [pySliceSeq, exc_bind_ok]
  rw [mapM_fetchOne rawGet mc _ hobj, exc_bind_ok, exc_pure]

/-- C6: fetch bounding — a successful fetch produces at most `max_files`
entries (exactly `min max_files (number of changed files)`, silently
omitting the rest), and each entry's excerpt equals the raw content
unchanged when its length is within `max_chars_per_file`, and otherwise
equals exactly the first `max_chars_per_file` characters followed by the
visible truncation marker.  The source's defaults are 5 and 2000. -/
theorem C6_fetch_bounding (ghGet : GHGet → Except PyErr Json)
    (rawGet : Json → Except PyErr (List Char)) (owner repo : List Char) (n : Nat)
    (token : Option (List Char)) (mf mc : Nat) (pr : Json) (es : JArr)
    (hp : ghGet (.pulls owner repo n token) = .ok pr)
    (hf : ghGet (.pullFiles owner repo n token) = .ok (.jarr es))
    (hobj : ∀ f ∈ es.toList.take mf, ∃ ms, f = .jobj ms) :
    ∃ sel, fetch_pr_and_files ghGet rawGet owner repo n token mf mc = .ok (pr, sel)
    ∧ sel.length ≤ mf
    ∧ sel.length = min mf es.toList.length
    ∧ ∀ e ∈ sel, ∃ ms, Json.jobj ms ∈ es.toList.take mf
        ∧ ∀ c, rawGet (ms.getD (("raw_url").data) .jnull) = .ok c →
            (c.length ≤ mc → e.contents = c)
            ∧ (mc < c.length → e.contents = c.take mc ++ truncationMarker) := by
  refine ⟨_, fetch_pr_and_files_ok ghGet rawGet owner repo n token mf mc pr es hp hf hobj,
    ?_, ?_, ?_⟩
  · simp [List.length_take]
  · simp [List.length_take]
  · intro e he
    rcases List.mem_map.mp he with ⟨f, hfm, rfl⟩
    obtain ⟨ms, rfl⟩ := hobj f hfm
    refine ⟨ms, hfm, ?_⟩
    intro c hc
    have hcontents : (entryOfJson rawGet mc (Json.jobj ms)).contents
        = truncateContents c mc := by
      simp [entryOfJson, entryOf, rawOrPlaceholder, hc]
    constructor
    · intro hle
      rw [hcontents]
      unfold truncateContents
      rw [if_neg (by omega)]
    · intro hgt
      rw [hcontents]
      unfold truncateContents
      rw [if_pos (by omega)]

/-- A stub metadata/file-list oracle returning the given file list. -/
def ghGetPrFiles (es : JArr) : GHGet → Except PyErr Json := fun g =>
  match g with
  | .pulls _ _ _ _ => .ok .jnull
  | .pullFiles _ _ _ _ => .ok (.jarr es)

/-- Eight empty file dicts, for the C6 witness. -/
def files8 : JArr := JArr.ofList (List.replicate 8 (Json.jobj JObj.onil))

/-- One empty file dict, for the C7 witness. -/
def files1 : JArr := .acons (.jobj .onil) .anil

/-- Witness for C6 at the spec's own numbers scaled down: 8 changed files
with `max_files = 5` give exactly 5 entries, and a 5-character content with
`max_chars_per_file = 3` is cut to its first 3 characters plus the marker. -/
theorem C6_fetch_bounding_witness :
    ∃ sel, fetch_pr_and_files (ghGetPrFiles files8)
        (fun _ => .ok (("abcde").data)) (("o").data) (("r").data) 1 none 5 3
      = .ok (.jnull, sel)
    ∧ sel.length ≤ 5 ∧ sel.length = 5
    ∧ (∀ e ∈ sel, e.contents = ("abc").data ++ truncationMarker) := by
  obtain ⟨sel, hfetch, hle, hlen, hmem⟩ := C6_fetch_bounding (ghGetPrFiles files8)
    (fun _ => .ok (("abcde").data)) (("o").data) (("r").data) 1 none 5 3 .jnull files8
    rfl rfl (by
      intro f hfm
      simp only [files8, JArr.ofList, List.replicate, JArr.toList, List.take, List.mem_cons,
        List.not_mem_nil, or_false] at hfm
      rcases hfm with rfl | rfl | rfl | rfl | rfl <;> exact ⟨.onil, rfl⟩)
  refine ⟨sel, hfetch, hle, ?_, fun e he => by
    obtain ⟨ms, _, hraw⟩ := hmem e he
    have := (hraw (("abcde").data) rfl).2 (by decide)
    simpa using this⟩
  rw [hlen]
  simp [files8, JArr.ofList, List.replicate, JArr.toList]

/-- C7: partial-failure tolerance — when the raw-content fetch of one
changed file fails, `fetch_pr_and_files` (at its defaults 5/2000) still
succeeds and still returns an entry for that file, whose excerpt is the
fixed placeholder string. -/
theorem C7_partial_failure_tolerance (ghGet : GHGet → Except PyErr Json)
    (rawGet : Json → Except PyErr (List Char)) (owner repo : List Char) (n : Nat)
    (token : Option (List Char)) (pr : Json) (es : JArr) (ms : JObj) (err : PyErr)
    (hp : ghGet (.pulls owner repo n token) = .ok pr)
    (hf : ghGet (.pullFiles owner repo n token) = .ok (.jarr es))
    (hobj : ∀ f ∈ es.toList.take 5, ∃ ms, f = .jobj ms)
    (hmem : Json.jobj ms ∈ es.toList.take 5)
    (hfail : rawGet (ms.getD (("raw_url").data) .jnull) = .error err) :
    ∃ sel, fetch_pr_and_files ghGet rawGet owner repo n token 5 2000 = .ok (pr, sel)
    ∧ ChangedFileRec.mk (ms.getD (("filename").data) .jnull)
        (ms.getD (("status").data) .jnull) (ms.getD (("changes").data) .jnull)
        failedFetchPlaceholder ∈ sel := by
  refine ⟨_, fetch_pr_and_files_ok ghGet rawGet owner repo n token 5 2000 pr es hp hf hobj, ?_⟩
  have h1 : entryOfJson rawGet 2000 (Json.jobj ms)
      = ChangedFileRec.mk (ms.getD (("filename").data) .jnull)
          (ms.getD (("status").data) .jnull) (ms.getD (("changes").data) .jnull)
          failedFetchPlaceholder := by
    simp only [entryOfJson, entryOf, rawOrPlaceholder, hfail]
    unfold truncateContents
    rw [if_neg (by decide)]
  exact h1 ▸ List.mem_map_of_mem (entryOfJson rawGet 2000) hmem

/-- Witness for C7: one file whose raw fetch fails still yields an entry
with the placeholder excerpt, and the fetch succeeds. -/
theorem C7_partial_failure_tolerance_witness :
    ∃ sel, fetch_pr_and_files (ghGetPrFiles files1)
        (fun _ => .error (.httpError [])) (("o").data) (("r").data) 1 none 5 2000
      = .ok (.jnull, sel)
    ∧ ChangedFileRec.mk .jnull .jnull .jnull failedFetchPlaceholder ∈ sel :=
  C7_partial_failure_tolerance (ghGetPrFiles files1)
    (fun _ => .error (.httpError [])) (("o").data) (("r").data) 1 none .jnull
    files1 .onil (.httpError []) rfl rfl
    (by intro f hfm; exact ⟨.onil, by simpa [files1, JArr.toList, List.take] using hfm⟩)
    (by simp [files1, JArr.toList, List.take]) rfl

/-- A failed review post aborts `post_review_and_labels` with exactly the
one attempted call. -/
theorem post_review_fail_atomic (gh : GHCall → Except PyErr Json) (owner repo : List Char)
    (pr_number : Nat) (token : Option (List Char)) (rj : Json) (b : List Char) (e : PyErr)
    (hb : bodyOf rj = .ok b)
    (hgh : gh (GHCall.postReview owner repo pr_number b token) = .error e) :
    post_review_and_labels gh owner repo pr_number token rj
      = ([GHCall.postReview owner repo pr_number b token], .error e) := by
  simp [post_review_and_labels, hb, hgh]

/-- A rejected label post after an accepted review post makes
`post_review_and_labels` fail with the two attempted calls as its trace. -/
theorem post_labels_fail_atomic (gh : GHCall → Except PyErr Json) (owner repo : List Char)
    (pr_number : Nat) (token : Option (List Char)) (rj : Json) (b : List Char)
    (rr : Json) (ts : List Json) (e : PyErr)
    (hb : bodyOf rj = .ok b)
    (hgh1 : gh (GHCall.postReview owner repo pr_number b token) = .ok rr)
    (hts : labelsToAdd rj = .ok ts)
    (htsne : ts.isEmpty = false)
    (hgh2 : gh (GHCall.postLabels owner repo pr_number ts token) = .error e) :
    post_review_and_labels gh owner repo pr_number token rj
      = ([GHCall.postReview owner repo pr_number b token,
          GHCall.postLabels owner repo pr_number ts token], .error e) := by
  simp [post_review_and_labels, hb, hgh1, hts, htsne, hgh2]

/-- C8: publish atomicity and error payload — label-posting is attempted
only after a successful review post (a failed review post produces a trace
containing only the review call, so `postLabels` is never invoked), and
when either publish operation fails with an HTTP error — the review post
rejected, or the review post accepted and the label post rejected — the
route's 500 response body carries the already-computed model verdict under
`model_output`. -/
theorem C8_publish_atomicity_and_payload :
    (∀ (gh : GHCall → Except PyErr Json) (owner repo : List Char) (pr_number : Nat)
        (token : Option (List Char)) (rj : Json) (b : List Char) (e : PyErr),
      bodyOf rj = .ok b →
      gh (GHCall.postReview owner repo pr_number b token) = .error e →
      post_review_and_labels gh owner repo pr_number token rj
        = ([GHCall.postReview owner repo pr_number b token], .error e))
    ∧ (∀ (deps : Deps) (u : List Char) (ft gt : Option (List Char)) (owner repo : List Char)
        (pr_number : Nat) (tok : List Char) (pr : Json) (files : List ChangedFileRec)
        (prompt : List (List Char × List Char)) (model_text : List Char) (rj : Json)
        (b : List Char) (d : List Char),
      u ≠ [] →
      parse_pr_url u = some (owner, repo, pr_number) →
      pyOrOpt ft gt = some tok →
      tok ≠ [] →
      fetch_pr_and_files deps.ghGet deps.rawGet owner repo pr_number (some tok) 5 2000
        = .ok (pr, files) →
      build_prompt pr files = .ok prompt →
      call_openai_review deps.openaiKeySet deps.complete prompt = .ok model_text →
      parse_model_json_safe model_text = .ok rj →
      bodyOf rj = .ok b →
      deps.gh (GHCall.postReview owner repo pr_number b (some tok)) = .error (.httpError d) →
      review deps (some u) ft gt
        = .ok (HttpResp.mk (.jobj (.ocons (("error").data)
            (.jstr (("Failed to post review/labels to GitHub").data))
            (.ocons (("details").data) (.jstr d)
              (.ocons (("model_output").data) rj .onil)))) 500,
          [GHCall.postReview owner repo pr_number b (some tok)]))
    ∧ (∀ (deps : Deps) (u : List Char) (ft gt : Option (List Char)) (owner repo : List Char)
        (pr_number : Nat) (tok : List Char) (pr : Json) (files : List ChangedFileRec)
        (prompt : List (List Char × List Char)) (model_text : List Char) (rj : Json)
        (b : List Char) (rr : Json) (ts : List Json) (d : List Char),
      u ≠ [] →
      parse_pr_url u = some (owner, repo, pr_number) →
      pyOrOpt ft gt = some tok →
      tok ≠ [] →
      fetch_pr_and_files deps.ghGet deps.rawGet owner repo pr_number (some tok) 5 2000
        = .ok (pr, files) →
      build_prompt pr files = .ok prompt →
      call_openai_review deps.openaiKeySet deps.complete prompt = .ok model_text →
      parse_model_json_safe model_text = .ok rj →
      bodyOf rj = .ok b →
      deps.gh (GHCall.postReview owner repo pr_number b (some tok)) = .ok rr →
      labelsToAdd rj = .ok ts →
      ts.isEmpty = false →
      deps.gh (GHCall.postLabels owner repo pr_number ts (some tok)) = .error (.httpError d) →
      review deps (some u) ft gt
        = .ok (HttpResp.mk (.jobj (.ocons (("error").data)
            (.jstr (("Failed to post review/labels to GitHub").data))
            (.ocons (("details").data) (.jstr d)
              (.ocons (("model_output").data) rj .onil)))) 500,
          [GHCall.postReview owner repo pr_number b (some tok),
           GHCall.postLabels owner repo pr_number ts (some tok)])) := by
  refine ⟨post_review_fail_atomic, ?_, ?_⟩
  · intro deps u ft gt owner repo pr_number tok pr files prompt model_text rj b d
      hu hurl htok htokne hfetch hbuild hopenai hparse hb hgh
    have hpost := post_review_fail_atomic deps.gh owner repo pr_number (some tok) rj b
      (.httpError d) hb hgh
    cases u with
    | nil => exact absurd rfl hu
    | cons c0 urest =>
      have htoks : isFalsyStrOpt (some tok) = false := by
        simpa [isFalsyStrOpt] using htokne
      simp only [review, htok, htoks, List.isEmpty_cons, Bool.false_eq_true, if_false,
        hurl, hfetch, hbuild, hopenai, hparse, hpost]
  · intro deps u ft gt owner repo pr_number tok pr files prompt model_text rj b rr ts d
      hu hurl htok htokne hfetch hbuild hopenai hparse hb hgh1 hts htsne hgh2
    have hpost := post_labels_fail_atomic deps.gh owner repo pr_number (some tok) rj b rr ts
      (.httpError d) hb hgh1 hts htsne hgh2
    cases u with
    | nil => exact absurd rfl hu
    | cons c0 urest =>
      have htoks : isFalsyStrOpt (some tok) = false := by
        simpa [isFalsyStrOpt] using htokne
      simp only [review, htok, htoks, List.isEmpty_cons, Bool.false_eq_true, if_false,
        hurl, hfetch, hbuild, hopenai, hparse, hpost]

theorem dropLit_append (lit : List Char) : ∀ t, dropLit lit (lit ++ t) = some t := by
  induction lit with
  | nil => intro t; rfl
  | cons l ls ih => intro t; simp [dropLit, ih]

theorem dropLit_some (lit : List Char) : ∀ t s, dropLit lit t = some s → t = lit ++ s := by
  induction lit with
  | nil =>
    intro t s h
    simp [dropLit] at h
    simp [h]
  | cons l ls ih =>
    intro t s h
    cases t with
    | nil => simp [dropLit] at h
    | cons c cs =>
      by_cases hc : c = l
      · subst hc
        simp only [dropLit, if_pos rfl] at h
        simp [ih cs s h]
      · simp [dropLit, hc] at h

theorem dropLit_extend (lit : List Char) : ∀ t s w, dropLit lit t = some s →
    dropLit lit (t ++ w) = some (s ++ w) := by
  induction lit with
  | nil => intro t s w h; simp_all [dropLit]
  | cons l ls ih =>
    intro t s w h
    cases t with
    | nil => simp [dropLit] at h
    | cons c cs =>
      by_cases hc : c = l
      · subst hc
        simp only [dropLit, if_pos rfl] at h
        simpa [dropLit] using ih cs s w h
      · simp [dropLit, hc] at h

theorem matchAt_not_h (c : Char) (t : List Char) (h : c ≠ 'h') : matchAt (c :: t) = none := by
  unfold matchAt
  simp [dropLit, h]

theorem matchFrom_append_skip (pre : List Char) (t : List Char)
    (h : ∀ c ∈ pre, c ≠ 'h') : matchFrom (pre ++ t) = matchFrom t := by
  induction pre with
  | nil => rfl
  | cons c rest ih =>
    rw [List.cons_append]
    unfold matchFrom
    rw [matchAt_not_h c (rest ++ t) (h c (by simp))]
    cases t with
    | nil => simpa using ih (fun d hd => h d (by simp [hd]))
    | cons x xs => simpa using ih (fun d hd => h d (by simp [hd]))

theorem isEmpty_false_of_ne (l : List Char) (h : l ≠ []) : l.isEmpty = false := by
  cases l with
  | nil => exact absurd rfl h
  | cons c cs => rfl

theorem tw_dw_append (p : Char → Bool) : ∀ (a b : List Char),
    (∀ c ∈ a, p c = true) → (∀ d bs, b = d :: bs → p d = false) →
    (a ++ b).takeWhile p = a ∧ (a ++ b).dropWhile p = b := by
  intro a
  induction a with
  | nil =>
    intro b _ hb
    cases b with
    | nil => simp
    | cons d bs => simp [List.takeWhile, List.dropWhile, hb d bs rfl]
  | cons c a2 ih =>
    intro b ha hb
    have hc : p c = true := ha c (by simp)
    have := ih b (fun d hd => ha d (by simp [hd])) hb
    simp [List.takeWhile, List.dropWhile, hc, this.1, this.2]

theorem dropWhile_append_of_head (p : Char → Bool) : ∀ (a b : List Char),
    (∀ d bs, b = d :: bs → p d = false) →
    (a ++ b).dropWhile p = a.dropWhile p ++ b := by
  intro a
  induction a with
  | nil =>
    intro b hb
    cases b with
    | nil => simp
    | cons d bs => simp [List.dropWhile, hb d bs rfl]
  | cons c a2 ih =>
    intro b hb
    cases hc : p c with
    | true => simp [List.dropWhile, hc, ih b hb]
    | false => simp [List.dropWhile, hc]

theorem mem_of_mem_dropWhile (p : Char → Bool) : ∀ (l : List Char) (x : Char),
    x ∈ l.dropWhile p → x ∈ l := by
  intro l
  induction l with
  | nil => intro x h; simp at h
  | cons c cs ih =>
    intro x h
    cases hc : p c with
    | true =>
      rw [List.dropWhile_cons_of_pos hc] at h
      exact List.mem_cons_of_mem c (ih x h)
    | false =>
      rw [List.dropWhile_cons_of_neg (by simp [hc])] at h
      exact h

theorem dropWhile_eq_drop (p : Char → Bool) : ∀ (l : List Char), ∃ m, l.dropWhile p = l.drop m := by
  intro l
  induction l with
  | nil => exact ⟨0, rfl⟩
  | cons c cs ih =>
    cases hc : p c with
    | true =>
      obtain ⟨m, hm⟩ := ih
      exact ⟨m + 1, by simpa [List.dropWhile_cons_of_pos hc] using hm⟩
    | false =>
      refine ⟨0, ?_⟩
      rw [List.drop_zero, List.dropWhile_cons_of_neg]
      simp [hc]

theorem reverse_drop_reverse (l : List Char) (n : Nat) :
    (l.reverse.drop n).reverse = l.take (l.length - n) := by
  by_cases h : n ≤ l.length
  · have h2 : (l.take (l.length - n)).reverse = l.reverse.drop (l.length - (l.length - n)) :=
      List.reverse_take
    rw [Nat.sub_sub_self h] at h2
    rw [← h2, List.reverse_reverse]
  · push_neg at h
    have h1 : l.reverse.drop n = [] := by
      apply List.drop_eq_nil_of_le
      simpa using h.le
    have h2 : l.length - n = 0 := by omega
    simp [h1, h2]

theorem take_cons_decomp (l : List Char) (k : Nat) (d : Char) (bs : List Char)
    (h : l.take k = d :: bs) : ∃ cs, l = d :: cs := by
  cases l with
  | nil => simp at h
  | cons c cs =>
    cases k with
    | zero => simp at h
    | succ k2 =>
      rw [List.take_succ_cons] at h
      exact ⟨cs, by rw [(List.cons.injEq _ _ _ _).mp h |>.1]⟩

theorem rstrip_head_not (q : Char → Bool) (suf : List Char)
    (h : ∀ d bs, suf = d :: bs → q d = false) :
    ∀ d bs, (suf.reverse.dropWhile isPySpace).reverse = d :: bs → q d = false := by
  intro d bs heq
  obtain ⟨m, hm⟩ := dropWhile_eq_drop isPySpace suf.reverse
  rw [hm, reverse_drop_reverse] at heq
  obtain ⟨cs, hcs⟩ := take_cons_decomp _ _ _ _ heq
  exact h d cs hcs

theorem isDigit_not_pySpace (c : Char) (h : c.isDigit = true) : isPySpace c = false := by
  cases hs : isPySpace c with
  | false => rfl
  | true =>
    simp only [isPySpace, Bool.or_eq_true, decide_eq_true_eq] at hs
    rcases hs with ((((rfl | rfl) | rfl) | rfl) | rfl) | rfl <;> exact absurd h (by decide)

theorem takeWhile_head (p : Char → Bool) (l : List Char) (d : Char) (bs : List Char)
    (h : l.takeWhile p = d :: bs) : (∃ cs, l = d :: cs) ∧ p d = true := by
  cases l with
  | nil => simp at h
  | cons c cs =>
    cases hc : p c with
    | true =>
      rw [List.takeWhile_cons_of_pos hc] at h
      have := (List.cons.injEq _ _ _ _).mp h
      exact ⟨⟨cs, by rw [this.1]⟩, this.1 ▸ hc⟩
    | false =>
      rw [List.takeWhile_cons_of_neg (by simp [hc])] at h
      simp at h

theorem matchTail_ref (owner repo ds suf : List Char)
    (how : owner ≠ []) (hosl : ∀ c ∈ owner, c ≠ '/')
    (hrep : repo ≠ []) (hrsl : ∀ c ∈ repo, c ≠ '/')
    (hds : ds ≠ []) (hdsd : ∀ c ∈ ds, c.isDigit = true)
    (hsuf : ∀ d bs, suf = d :: bs → d.isDigit = false) :
    matchTail (owner ++ ('/' :: (repo ++ (("/pull/").data ++ (ds ++ suf)))))
      = some (owner, repo, digitsToNat ds) := by
  obtain ⟨tw1, dw1⟩ := tw_dw_append notSlash owner ('/' :: (repo ++ (("/pull/").data ++ (ds ++ suf))))
    (fun c hc => by simpa [notSlash] using hosl c hc)
    (by intro d bs h; injection h with h1 _; rw [← h1]; simp [notSlash])
  obtain ⟨tw2, dw2⟩ := tw_dw_append notSlash repo (("/pull/").data ++ (ds ++ suf))
    (fun c hc => by simpa [notSlash] using hrsl c hc)
    (by
      intro d bs h
      rw [show (("/pull/").data ++ (ds ++ suf)) = '/' :: ((("pull/").data ++ (ds ++ suf))) from rfl] at h
      injection h with h1 _
      rw [← h1]; simp [notSlash])
  obtain ⟨tw3, dw3⟩ := tw_dw_append Char.isDigit ds suf hdsd hsuf
  unfold matchTail
  rw [tw1, dw1, isEmpty_false_of_ne owner how]
  simp only [Bool.false_eq_true, if_false]
  rw [tw2, dw2, isEmpty_false_of_ne repo hrep]
  simp only [Bool.false_eq_true, if_false]
  rw [show (("/pull/").data ++ (ds ++ suf)) = (("/pull/").data ++ (ds ++ suf)) from rfl,
    dropLit_append (("/pull/").data) (ds ++ suf)]
  simp only [tw3, isEmpty_false_of_ne ds hds, Bool.false_eq_true, if_false]

theorem matchAt_ref (secure : Bool) (owner repo ds suf : List Char)
    (how : owner ≠ []) (hosl : ∀ c ∈ owner, c ≠ '/')
    (hrep : repo ≠ []) (hrsl : ∀ c ∈ repo, c ≠ '/')
    (hds : ds ≠ []) (hdsd : ∀ c ∈ ds, c.isDigit = true)
    (hsuf : ∀ d bs, suf = d :: bs → d.isDigit = false) :
    matchAt ((if secure then ("https").data else ("http").data)
        ++ (("://github.com/").data ++ (owner ++ ('/' :: (repo ++ (("/pull/").data ++ (ds ++ suf)))))))
      = some (owner, repo, digitsToNat ds) := by
  have htail := matchTail_ref owner repo ds suf how hosl hrep hrsl hds hdsd hsuf
  cases secure with
  | true =>
    calc matchAt (("https").data
          ++ (("://github.com/").data ++ (owner ++ ('/' :: (repo ++ (("/pull/").data ++ (ds ++ suf)))))))
        = matchTail (owner ++ ('/' :: (repo ++ (("/pull/").data ++ (ds ++ suf))))) := rfl
      _ = some (owner, repo, digitsToNat ds) := htail
  | false =>
    calc matchAt (("http").data
          ++ (("://github.com/").data ++ (owner ++ ('/' :: (repo ++ (("/pull/").data ++ (ds ++ suf)))))))
        = matchTail (owner ++ ('/' :: (repo ++ (("/pull/").data ++ (ds ++ suf))))) := rfl
      _ = some (owner, repo, digitsToNat ds) := htail

/-- Stripping whitespace around `pre ++ A ++ ds ++ suf` (with `A` starting
with a non-space character and `ds` a nonempty digit run) only shrinks
`pre` and `suf`: the shrunk `pre` has the same characters, and the shrunk
`suf` still does not start with a digit. -/
theorem strip_decomp (pre A ds suf : List Char)
    (hA : ∃ a0 arest, A = a0 :: arest ∧ isPySpace a0 = false)
    (hds : ds ≠ []) (hdsd : ∀ c ∈ ds, c.isDigit = true)
    (hsuf : ∀ d bs, suf = d :: bs → d.isDigit = false) :
    ∃ pre2 suf2,
      pyStrip (pre ++ (A ++ (ds ++ suf))) = pre2 ++ (A ++ (ds ++ suf2))
      ∧ (∀ c ∈ pre2, c ∈ pre)
      ∧ (∀ d bs, suf2 = d :: bs → d.isDigit = false) := by
  obtain ⟨a0, arest, rfl, ha0⟩ := hA
  refine ⟨pre.dropWhile isPySpace, (suf.reverse.dropWhile isPySpace).reverse, ?_, ?_, ?_⟩
  · unfold pyStrip
    have hL : (pre ++ ((a0 :: arest) ++ (ds ++ suf))).dropWhile isPySpace
        = pre.dropWhile isPySpace ++ ((a0 :: arest) ++ (ds ++ suf)) := by
      apply dropWhile_append_of_head
      intro d bs h
      rw [List.cons_append] at h
      injection h with h1 _
      rw [← h1]
      exact ha0
    rw [hL]
    obtain ⟨d0, drest, hds0⟩ : ∃ d0 drest, ds.reverse = d0 :: drest := by
      cases hr : ds.reverse with
      | nil =>
        exfalso
        apply hds
        have := congrArg List.reverse hr
        simpa using this
      | cons x xs => exact ⟨x, xs, rfl⟩
    have hd0 : d0.isDigit = true := by
      apply hdsd
      rw [← List.mem_reverse, hds0]
      simp
    have hrev : (pre.dropWhile isPySpace ++ ((a0 :: arest) ++ (ds ++ suf))).reverse
        = suf.reverse ++ (ds.reverse
            ++ ((a0 :: arest).reverse ++ (pre.dropWhile isPySpace).reverse)) := by
      simp [List.reverse_append, List.append_assoc]
    rw [hrev]
    have hR : (suf.reverse ++ (ds.reverse
          ++ ((a0 :: arest).reverse ++ (pre.dropWhile isPySpace).reverse))).dropWhile isPySpace
        = suf.reverse.dropWhile isPySpace ++ (ds.reverse
            ++ ((a0 :: arest).reverse ++ (pre.dropWhile isPySpace).reverse)) := by
      apply dropWhile_append_of_head
      intro d bs h
      rw [hds0, List.cons_append] at h
      injection h with h1 _
      rw [← h1]
      exact isDigit_not_pySpace d0 hd0
    rw [hR]
    simp [List.reverse_append, List.reverse_reverse, List.append_assoc]
  · exact fun c hc => mem_of_mem_dropWhile isPySpace pre c hc
  · exact rstrip_head_not Char.isDigit suf hsuf

theorem startsPull_extend (v w : List Char) (h : startsPullDigit v = true) :
    startsPullDigit (v ++ w) = true := by
  unfold startsPullDigit at h ⊢
  cases hd : dropLit (("/pull/").data) v with
  | none => rw [hd] at h; simp at h
  | some s =>
    rw [hd] at h
    cases s with
    | nil => simp at h
    | cons d rest =>
      rw [dropLit_extend (("/pull/").data) v (d :: rest) w hd]
      simpa using h

theorem hasPull_append_right (u w : List Char) (h : hasPullDigit u = true) :
    hasPullDigit (u ++ w) = true := by
  induction u with
  | nil => simp [hasPullDigit] at h
  | cons c r ih =>
    rw [List.cons_append]
    unfold hasPullDigit at h ⊢
    cases hs : startsPullDigit (c :: r) with
    | true =>
      have := startsPull_extend (c :: r) w hs
      rw [List.cons_append] at this
      rw [this]
      simp
    | false =>
      rw [hs] at h
      simp only [Bool.false_or] at h
      rw [ih h]
      simp

theorem hasPull_append_left (u v : List Char) (h : hasPullDigit v = true) :
    hasPullDigit (u ++ v) = true := by
  induction u with
  | nil => simpa using h
  | cons c r ih =>
    rw [List.cons_append]
    unfold hasPullDigit
    rw [ih]
    simp

theorem hasPull_cons_eq (c : Char) (r : List Char) :
    hasPullDigit (c :: r) = (startsPullDigit (c :: r) || hasPullDigit r) := rfl

theorem hasPull_of_starts (v : List Char) (h : startsPullDigit v = true) :
    hasPullDigit v = true := by
  have hv : ∃ s, v = ("/pull/").data ++ s := by
    unfold startsPullDigit at h
    cases hd : dropLit (("/pull/").data) v with
    | none => rw [hd] at h; simp at h
    | some s => exact ⟨s, dropLit_some _ _ _ hd⟩
  obtain ⟨s, hv⟩ := hv
  rw [hv, show (("/pull/").data ++ s) = '/' :: ((("pull/").data ++ s)) from rfl, hasPull_cons_eq]
  have hs : startsPullDigit ('/' :: ((("pull/").data ++ s))) = true := by
    rw [show ('/' :: ((("pull/").data ++ s))) = (("/pull/").data ++ s) from rfl, ← hv]
    exact h
  rw [hs]
  simp

theorem dropWhile_notSlash_head : ∀ (t : List Char) (c : Char) (r : List Char),
    t.dropWhile notSlash = c :: r → c = '/' := by
  intro t
  induction t with
  | nil => intro c r h; simp at h
  | cons x xs ih =>
    intro c r h
    cases hx : notSlash x with
    | true =>
      rw [List.dropWhile_cons_of_pos hx] at h
      exact ih c r h
    | false =>
      rw [List.dropWhile_cons_of_neg (by simp [hx])] at h
      injection h with h1 _
      have : ¬x ≠ '/' := by simpa [notSlash] using hx
      rw [← h1]
      simpa using this

theorem matchTail_imp_pull (t3 : List Char) (r : List Char × List Char × Nat)
    (h : matchTail t3 = some r) : hasPullDigit t3 = true := by
  unfold matchTail at h
  split at h
  · simp at h
  · split at h
    · next t4 heq =>
      split at h
      · simp at h
      · split at h
        · simp at h
        · next t5 h5 =>
          split at h
          · simp at h
          · next hie3 =>
            have htw5 : ∃ d5 bs5, t5.takeWhile Char.isDigit = d5 :: bs5 := by
              cases htw : t5.takeWhile Char.isDigit with
              | nil => rw [htw] at hie3; simp at hie3
              | cons d5 bs5 => exact ⟨d5, bs5, rfl⟩
            obtain ⟨d5, bs5, htw5⟩ := htw5
            obtain ⟨⟨cs5, hcs5⟩, hd5⟩ := takeWhile_head Char.isDigit t5 d5 bs5 htw5
            have hstart : startsPullDigit (t4.dropWhile notSlash) = true := by
              unfold startsPullDigit
              rw [h5, hcs5]
              exact hd5
            have hpull4 : hasPullDigit t4 = true := by
              have h4 : t4 = t4.takeWhile notSlash ++ t4.dropWhile notSlash :=
                (List.takeWhile_append_dropWhile _ _).symm
              rw [h4]
              exact hasPull_append_left _ _ (hasPull_of_starts _ hstart)
            have h3 : t3 = t3.takeWhile notSlash ++ ('/' :: t4) := by
              conv_lhs => rw [← List.takeWhile_append_dropWhile (p := notSlash) (l := t3)]
              rw [heq]
            rw [h3]
            apply hasPull_append_left
            rw [show ('/' :: t4) = ['/'] ++ t4 from rfl]
            exact hasPull_append_left _ _ hpull4
    · simp at h

theorem matchAt_inv (t : List Char) (r : List Char × List Char × Nat)
    (h : matchAt t = some r) :
    ∃ t1 t3, dropLit (("http").data) t = some t1
      ∧ dropLit (("://github.com/").data) (match t1 with
          | 's' :: rr => rr
          | _ => t1) = some t3
      ∧ matchTail t3 = some r := by
  unfold matchAt at h
  split at h
  · simp at h
  · next t1 h1 =>
    split at h
    · simp at h
    · next t3 h2 => exact ⟨t1, t3, h1, h2, h⟩

theorem matchAt_imp_pull (t : List Char) (r : List Char × List Char × Nat)
    (h : matchAt t = some r) : hasPullDigit t = true := by
  obtain ⟨t1, t3, h1, h2, h3⟩ := matchAt_inv t r h
  have ht : t = ("http").data ++ t1 := dropLit_some _ _ _ h1
  have hpull3 : hasPullDigit t3 = true := matchTail_imp_pull t3 r h3
  rw [ht]
  split at h2
  · rename_i X
    have hX2 : X = (("://github.com/").data ++ t3) := dropLit_some _ _ _ h2
    rw [hX2]
    apply hasPull_append_left
    rw [show ('s' :: ((("://github.com/").data ++ t3)))
        = ['s'] ++ ((("://github.com/").data ++ t3)) from rfl]
    exact hasPull_append_left _ _ (hasPull_append_left _ _ hpull3)
  · have hX2 : t1 = (("://github.com/").data ++ t3) := dropLit_some _ _ _ h2
    rw [hX2]
    exact hasPull_append_left _ _ (hasPull_append_left _ _ hpull3)

theorem matchFrom_imp_pull : ∀ (t : List Char) (r : List Char × List Char × Nat),
    matchFrom t = some r → hasPullDigit t = true := by
  intro t
  induction t with
  | nil => intro r h; simp [matchFrom] at h
  | cons c rest ih =>
    intro r h
    unfold matchFrom at h
    cases hA : matchAt (c :: rest) with
    | some r2 => exact matchAt_imp_pull _ _ hA
    | none =>
      rw [hA] at h
      rw [hasPull_cons_eq, ih r h]
      simp

theorem hasPull_strip (t : List Char) (h : hasPullDigit (pyStrip t) = true) :
    hasPullDigit t = true := by
  have h1 : t = t.takeWhile isPySpace ++ t.dropWhile isPySpace :=
    (List.takeWhile_append_dropWhile _ _).symm
  have h2 : t.dropWhile isPySpace
      = pyStrip t ++ ((t.dropWhile isPySpace).reverse.takeWhile isPySpace).reverse := by
    unfold pyStrip
    conv_lhs => rw [← List.reverse_reverse (t.dropWhile isPySpace)]
    conv_lhs =>
      rw [← List.takeWhile_append_dropWhile (p := isPySpace)
        (l := (t.dropWhile isPySpace).reverse)]
    rw [List.reverse_append]
  rw [h1, h2]
  exact hasPull_append_left _ _ (hasPull_append_right _ _ h)

theorem matchFrom_cons_some (c : Char) (rest : List Char) (r : List Char × List Char × Nat)
    (h : matchAt (c :: rest) = some r) : matchFrom (c :: rest) = some r := by
  unfold matchFrom
  rw [h]

/-- C5 counterexample: the claim admits any host (`http(s)://<host>/...`),
but the source regex (src/main.py line 73) hardcodes `github.com`; a
gitlab.com reference of exactly the claimed form is not recognized. -/
theorem C5_counterexample :
    parse_pr_url (("https://gitlab.com/acme/widgets/pull/42").data)
      ≠ some ((("acme").data, ("widgets").data, 42)) := by decide

/-- C5 (amended): with the host restricted to `github.com` — for every
string containing `http(s)://github.com/<owner>/<repo>/pull/<digits>`
(owner/repo nonempty runs of non-slash characters, a nonempty digit run),
where the text before the reference contains no `h` (so the reference is
the leftmost regex match) and the text after it does not start with a
digit (so the greedy `\d+` stops at the reference's digits),
`parse_pr_url` returns exactly `(owner, repo, value of digits)`; and every
string containing no `/pull/<digit>` substring is not recognized (`None`),
as the claim states. -/
theorem C5_reference_extraction :
    (∀ (pre owner repo ds suf : List Char) (secure : Bool),
      (∀ c ∈ pre, c ≠ 'h') →
      owner ≠ [] → (∀ c ∈ owner, c ≠ '/') →
      repo ≠ [] → (∀ c ∈ repo, c ≠ '/') →
      ds ≠ [] → (∀ c ∈ ds, c.isDigit = true) →
      (∀ d bs, suf = d :: bs → d.isDigit = false) →
      parse_pr_url (pre ++ ((if secure then ("https").data else ("http").data)
        ++ (("://github.com/").data
          ++ (owner ++ ('/' :: (repo ++ (("/pull/").data ++ (ds ++ suf))))))))
        = some ((owner, repo, digitsToNat ds)))
    ∧ (∀ t, hasPullDigit t = false → parse_pr_url t = none) := by
  constructor
  · intro pre owner repo ds suf secure hpre how hosl hrep hrsl hds hdsd hsuf
    obtain ⟨pre2, suf2, hstrip, hpre2, hsuf2⟩ := strip_decomp pre
      ((if secure then ("https").data else ("http").data)
        ++ (("://github.com/").data ++ (owner ++ ('/' :: (repo ++ ("/pull/").data)))))
      ds suf
      (by cases secure <;> exact ⟨'h', _, rfl, by decide⟩)
      hds hdsd hsuf
    unfold parse_pr_url
    have harg : (pre ++ ((if secure then ("https").data else ("http").data)
          ++ (("://github.com/").data
            ++ (owner ++ ('/' :: (repo ++ (("/pull/").data ++ (ds ++ suf))))))))
        = pre ++ (((if secure then ("https").data else ("http").data)
          ++ (("://github.com/").data ++ (owner ++ ('/' :: (repo ++ ("/pull/").data)))))
            ++ (ds ++ suf)) := by
      simp [List.append_assoc, List.cons_append]
    rw [harg, hstrip]
    have harg2 : pre2 ++ (((if secure then ("https").data else ("http").data)
          ++ (("://github.com/").data ++ (owner ++ ('/' :: (repo ++ ("/pull/").data)))))
            ++ (ds ++ suf2))
        = pre2 ++ ((if secure then ("https").data else ("http").data)
          ++ (("://github.com/").data
            ++ (owner ++ ('/' :: (repo ++ (("/pull/").data ++ (ds ++ suf2))))))) := by
      simp [List.append_assoc, List.cons_append]
    rw [harg2]
    rw [matchFrom_append_skip pre2 _ (fun c hc => hpre c (hpre2 c hc))]
    have hAt := matchAt_ref secure owner repo ds suf2 how hosl hrep hrsl hds hdsd hsuf2
    cases secure with
    | true =>
      have hAt2 : matchAt ('h' :: ((("ttps://github.com/").data
          ++ (owner ++ ('/' :: (repo ++ (("/pull/").data ++ (ds ++ suf2))))))))
          = some ((owner, repo, digitsToNat ds)) := hAt
      show matchFrom ('h' :: ((("ttps://github.com/").data
          ++ (owner ++ ('/' :: (repo ++ (("/pull/").data ++ (ds ++ suf2))))))))
          = some ((owner, repo, digitsToNat ds))
      exact matchFrom_cons_some _ _ _ hAt2
    | false =>
      have hAt2 : matchAt ('h' :: ((("ttp://github.com/").data
          ++ (owner ++ ('/' :: (repo ++ (("/pull/").data ++ (ds ++ suf2))))))))
          = some ((owner, repo, digitsToNat ds)) := hAt
      show matchFrom ('h' :: ((("ttp://github.com/").data
          ++ (owner ++ ('/' :: (repo ++ (("/pull/").data ++ (ds ++ suf2))))))))
          = some ((owner, repo, digitsToNat ds))
      exact matchFrom_cons_some _ _ _ hAt2
  · intro t hno
    cases hp : parse_pr_url t with
    | none => rfl
    | some r =>
      exfalso
      have h1 : matchFrom (pyStrip t) = some r := hp
      have h2 : hasPullDigit (pyStrip t) = true := matchFrom_imp_pull (pyStrip t) r h1
      rw [hasPull_strip t h2] at hno
      simp at hno

/-- Witness for C5 at the spec's own examples: the embedded github.com
reference is extracted, and `"hello world"` is not recognized. -/
theorem C5_reference_extraction_witness :
    parse_pr_url (("see https://github.com/acme/widgets/pull/42 for details").data)
      = some ((("acme").data, ("widgets").data, 42))
    ∧ hasPullDigit (("hello world").data) = false
    ∧ parse_pr_url (("hello world").data) = none := by
  refine ⟨?_, rfl, C5_reference_extraction.2 (("hello world").data) rfl⟩
  have h := C5_reference_extraction.1 (("see ").data) (("acme").data) (("widgets").data)
    (("42").data) ((" for details").data) true (by decide) (by decide) (by decide)
    (by decide) (by decide) (by decide) (by decide)
    (by intro d bs hh; injection hh with h1 _; rw [← h1]; decide)
  exact h

/-- A metadata/file-list oracle with an empty PR dict and no changed files. -/
def ghGetEmptyPr : GHGet → Except PyErr Json := fun g =>
  match g with
  | .pulls _ _ _ _ => .ok (.jobj .onil)
  | .pullFiles _ _ _ _ => .ok (.jarr .anil)

/-- Collaborators for the C8 witness: fetches succeed, the model answers
the non-JSON text `x`, and every GitHub write is rejected. -/
def depsC8 : Deps :=
  Deps.mk ghGetEmptyPr (fun _ => .ok []) true (fun _ => .ok (("x").data))
    (fun _ => .error (.httpError (("boom").data)))

/-- Collaborators for the C8 label-failure witness: fetches succeed, the
model proposes one allowed label, the review post is accepted and the
label post is rejected. -/
def depsC8L : Deps :=
  Deps.mk ghGetEmptyPr (fun _ => .ok []) true
    (fun _ => .ok (("\x7b\"labels\": [\"perf-issue\"]\x7d").data))
    (fun c => match c with
      | GHCall.postReview _ _ _ _ _ => .ok .jnull
      | GHCall.postLabels _ _ _ _ _ => .error (.httpError (("label boom").data)))

/-- Witness for C8: a concrete rejected review post yields a trace with no
label call and a 500 body carrying the model verdict, and a concrete
rejected label post after an accepted review post also yields the 500 body
with the model verdict and both calls in the trace. -/
theorem C8_publish_atomicity_and_payload_witness :
    post_review_and_labels (fun _ => .error (.httpError (("boom").data)))
      (("o").data) (("r").data) 1 none (.jobj .onil)
      = ([GHCall.postReview (("o").data) (("r").data) 1
          (("Automated review summary:\n\n\n\nDetailed comments:\n").data) none],
         .error (.httpError (("boom").data)))
    ∧ review depsC8 (some (("https://github.com/o/r/pull/1").data)) none (some (("t").data))
      = .ok (HttpResp.mk (.jobj (.ocons (("error").data)
            (.jstr (("Failed to post review/labels to GitHub").data))
            (.ocons (("details").data) (.jstr (("boom").data))
              (.ocons (("model_output").data)
                (.jobj (.ocons (("summary").data) (.jstr (("x").data))
                  (.ocons (("comments").data) (.jarr .anil)
                    (.ocons (("labels").data) (.jarr .anil) .onil)))) .onil)))) 500,
          [GHCall.postReview (("o").data) (("r").data) 1
            (("Automated review summary:\n\nx\n\nDetailed comments:\n").data)
            (some (("t").data))])
    ∧ review depsC8L (some (("https://github.com/o/r/pull/1").data)) none (some (("t").data))
      = .ok (HttpResp.mk (.jobj (.ocons (("error").data)
            (.jstr (("Failed to post review/labels to GitHub").data))
            (.ocons (("details").data) (.jstr (("label boom").data))
              (.ocons (("model_output").data)
                (.jobj (.ocons (("labels").data)
                  (.jarr (.acons (.jstr (("perf-issue").data)) .anil)) .onil)) .onil)))) 500,
          [GHCall.postReview (("o").data) (("r").data) 1
            (("Automated review summary:\n\n\n\nDetailed comments:\n").data)
            (some (("t").data)),
           GHCall.postLabels (("o").data) (("r").data) 1
            [.jstr (("perf-issue").data)] (some (("t").data))]) := by
  refine ⟨?_, ?_, ?_⟩
  · exact C8_publish_atomicity_and_payload.1
      (fun _ => .error (.httpError (("boom").data))) (("o").data) (("r").data) 1 none
      (.jobj .onil) (("Automated review summary:\n\n\n\nDetailed comments:\n").data)
      (.httpError (("boom").data)) rfl rfl
  · exact C8_publish_atomicity_and_payload.2.1 depsC8
      (("https://github.com/o/r/pull/1").data) none (some (("t").data))
      (("o").data) (("r").data) 1 (("t").data) (.jobj .onil) [] _ (("x").data)
      (.jobj (.ocons (("summary").data) (.jstr (("x").data))
        (.ocons (("comments").data) (.jarr .anil)
          (.ocons (("labels").data) (.jarr .anil) .onil))))
      (("Automated review summary:\n\nx\n\nDetailed comments:\n").data)
      (("boom").data)
      (by decide) rfl rfl (by decide) rfl rfl rfl rfl rfl rfl
  · exact C8_publish_atomicity_and_payload.2.2 depsC8L
      (("https://github.com/o/r/pull/1").data) none (some (("t").data))
      (("o").data) (("r").data) 1 (("t").data) (.jobj .onil) [] _
      (("\x7b\"labels\": [\"perf-issue\"]\x7d").data)
      (.jobj (.ocons (("labels").data)
        (.jarr (.acons (.jstr (("perf-issue").data)) .anil)) .onil))
      (("Automated review summary:\n\n\n\nDetailed comments:\n").data)
      .jnull [.jstr (("perf-issue").data)] (("label boom").data)
      (by decide) rfl rfl (by decide) rfl rfl rfl rfl rfl rfl rfl rfl rfl

/-! ### C2: round-trip machinery — characters and digits -/

theorem digit_ne {c : Char} (hc : c.isDigit = true) {d : Char} (hd : d.isDigit = false) :
    c ≠ d := by
  intro e
  subst e
  rw [hc] at hd
  cases hd

theorem digit_not_jws {c : Char} (hc : c.isDigit = true) : isJWs c = false := by
  have h1 : c ≠ ' ' := by intro e; subst e; simp [Char.isDigit] at hc
  have h2 : c ≠ '\t' := by intro e; subst e; simp [Char.isDigit] at hc
  have h3 : c ≠ '\n' := by intro e; subst e; simp [Char.isDigit] at hc
  have h4 : c ≠ '\r' := by intro e; subst e; simp [Char.isDigit] at hc
  simp [isJWs, h1, h2, h3, h4]

theorem char_not_surrogate (c : Char) : ¬ (0xD800 ≤ c.toNat ∧ c.toNat ≤ 0xDBFF) := by
  have h := c.valid
  unfold Char.toNat
  rcases h with h | ⟨h1, h2⟩ <;> omega

theorem decDigit_isDigit (m : Nat) (h : m < 10) : (decDigit m).isDigit = true := by
  interval_cases m <;> rfl

theorem digitVal_decDigit (m : Nat) (h : m < 10) : digitVal (decDigit m) = m := by
  interval_cases m <;> rfl

theorem decDigit_ne_zero (m : Nat) (h1 : m < 10) (h2 : m ≠ 0) : decDigit m ≠ '0' := by
  interval_cases m
  · exact absurd rfl h2
  all_goals decide

theorem hexVal_hexDigitChar (m : Nat) (h : m < 16) : hexVal (hexDigitChar m) = some m := by
  interval_cases m <;> rfl

theorem natDigits_ne_nil (n : Nat) : natDigits n ≠ [] := by
  rw [natDigits]
  split
  · simp
  · simp

theorem natDigits_all_digits (n : Nat) : ∀ c ∈ natDigits n, c.isDigit = true := by
  induction n using Nat.strong_induction_on with
  | _ n ih =>
    rw [natDigits]
    split
    · next h =>
      intro c hc
      rw [List.mem_singleton] at hc
      subst hc
      exact decDigit_isDigit n h
    · next h =>
      intro c hc
      rw [List.mem_append] at hc
      rcases hc with hc | hc
      · exact ih (n / 10) (Nat.div_lt_self (by omega) (by omega)) c hc
      · rw [List.mem_singleton] at hc
        subst hc
        exact decDigit_isDigit (n % 10) (Nat.mod_lt n (by omega))

theorem natDigits_head_ne_zero (n : Nat) (hn : n ≠ 0) :
    ∀ c cs, natDigits n = c :: cs → c ≠ '0' := by
  induction n using Nat.strong_induction_on with
  | _ n ih =>
    rw [natDigits]
    split
    · next h =>
      intro c cs he
      rw [List.cons.injEq] at he
      rw [← he.1]
      exact decDigit_ne_zero n h hn
    · next h =>
      intro c cs he
      cases hd : natDigits (n / 10) with
      | nil => exact absurd hd (natDigits_ne_nil _)
      | cons c2 cs2 =>
        rw [hd, List.cons_append, List.cons.injEq] at he
        rw [← he.1]
        exact ih (n / 10) (Nat.div_lt_self (by omega) (by omega)) (by omega) c2 cs2 hd

theorem digitsToNat_natDigits (n : Nat) : digitsToNat (natDigits n) = n := by
  induction n using Nat.strong_induction_on with
  | _ n ih =>
    rw [natDigits]
    split
    · next h =>
      show 10 * 0 + digitVal (decDigit n) = n
      rw [digitVal_decDigit n h]
      omega
    · next h =>
      unfold digitsToNat
      rw [List.foldl_append]
      have ihd : List.foldl (fun a c => 10 * a + digitVal c) 0 (natDigits (n / 10)) = n / 10 :=
        ih (n / 10) (Nat.div_lt_self (by omega) (by omega))
      rw [ihd]
      show 10 * (n / 10) + digitVal (decDigit (n % 10)) = n
      rw [digitVal_decDigit (n % 10) (Nat.mod_lt n (by omega))]
      omega

theorem wfIntPart_natDigits (m : Nat) : wfIntPart (natDigits m) = true := by
  by_cases hm : m = 0
  · subst hm
    rw [natDigits]
    rfl
  · cases hd : natDigits m with
    | nil => exact absurd hd (natDigits_ne_nil _)
    | cons c cs =>
      have hall : ∀ x ∈ natDigits m, x.isDigit = true := natDigits_all_digits m
      rw [hd] at hall
      have hc0 : c ≠ '0' := natDigits_head_ne_zero m hm c cs hd
      have h1 : (c :: cs).all Char.isDigit = true := by
        rw [List.all_eq_true]
        exact fun x hx => hall x hx
      unfold wfIntPart
      simp [h1, hc0]

/-! ### C2: number-lexer round trip -/

theorem guard_head_not_digit (r : List Char) (hr : guardHead r = true) :
    ∀ d bs, r = d :: bs → d.isDigit = false := by
  intro d bs he
  subst he
  simp [guardHead] at hr
  rcases hr with (rfl | rfl) | rfl <;> rfl

theorem lexIntPart_pos (c : Char) (cs rest : List Char) (h0 : c ≠ '0') (hc : c.isDigit = true)
    (hcs : ∀ d ∈ cs, d.isDigit = true) (hnd : ∀ d bs, rest = d :: bs → d.isDigit = false) :
    lexIntPart (c :: (cs ++ rest)) = some (c :: cs, rest) := by
  have htw := tw_dw_append Char.isDigit cs rest hcs hnd
  unfold lexIntPart
  split
  · next heq =>
    rw [List.cons.injEq] at heq
    exact absurd heq.1 h0
  · next c2 r2 heq =>
    rw [List.cons.injEq] at heq
    obtain ⟨rfl, rfl⟩ := heq
    rw [if_pos hc, htw.1, htw.2]
  · next heq => cases heq

theorem lexFrac_not_dot (c : Char) (X : List Char) (h : c ≠ '.') :
    lexFrac (c :: X) = ([], c :: X) := by
  unfold lexFrac
  split
  · next heq =>
    rw [List.cons.injEq] at heq
    exact absurd heq.1 h
  · rfl

theorem lexFrac_guard (r : List Char) (hr : guardHead r = true) : lexFrac r = ([], r) := by
  cases r with
  | nil => rfl
  | cons c cs =>
    simp [guardHead] at hr
    rcases hr with (rfl | rfl) | rfl <;> rfl

theorem lexFrac_digits (d : Char) (ds rest : List Char) (hd : d.isDigit = true)
    (hds : ∀ x ∈ ds, x.isDigit = true) (hnd : ∀ x bs, rest = x :: bs → x.isDigit = false) :
    lexFrac ('.' :: d :: (ds ++ rest)) = (d :: ds, rest) := by
  have htw := tw_dw_append Char.isDigit ds rest hds hnd
  simp [lexFrac, hd, htw.1, htw.2]

theorem lexExp_not_e (x : Char) (cs : List Char) (hx1 : x ≠ 'e') (hx2 : x ≠ 'E') :
    lexExp (x :: cs) = (false, [], x :: cs) := by
  unfold lexExp
  split
  · next e c r heq =>
    rw [List.cons.injEq] at heq
    obtain ⟨rfl, htl⟩ := heq
    rw [htl]
    simp [hx1, hx2]
  · next e c r heq =>
    rw [List.cons.injEq] at heq
    obtain ⟨rfl, htl⟩ := heq
    rw [htl]
    simp [hx1, hx2]
  · next e c r heq =>
    rw [List.cons.injEq] at heq
    obtain ⟨rfl, htl⟩ := heq
    rw [htl]
    simp [hx1, hx2]
  · rfl

theorem lexExp_guard (r : List Char) (hr : guardHead r = true) : lexExp r = (false, [], r) := by
  cases r with
  | nil => rfl
  | cons c cs =>
    simp [guardHead] at hr
    rcases hr with (rfl | rfl) | rfl <;> exact lexExp_not_e _ _ (by decide) (by decide)

theorem lexExp_neg (d : Char) (ds rest : List Char) (hd : d.isDigit = true)
    (hds : ∀ x ∈ ds, x.isDigit = true) (hnd : ∀ x bs, rest = x :: bs → x.isDigit = false) :
    lexExp ('e' :: '-' :: d :: (ds ++ rest)) = (true, d :: ds, rest) := by
  have htw := tw_dw_append Char.isDigit ds rest hds hnd
  simp [lexExp, hd, htw.1, htw.2]

theorem lexExp_pos (d : Char) (ds rest : List Char) (hd : d.isDigit = true)
    (hds : ∀ x ∈ ds, x.isDigit = true) (hnd : ∀ x bs, rest = x :: bs → x.isDigit = false) :
    lexExp ('e' :: d :: (ds ++ rest)) = (false, d :: ds, rest) := by
  have htw := tw_dw_append Char.isDigit ds rest hds hnd
  have hp : d ≠ '+' := digit_ne hd (by decide)
  have hm : d ≠ '-' := digit_ne hd (by decide)
  unfold lexExp
  split
  · simp_all
  · simp_all
  · rename_i heq
    obtain ⟨rfl, rfl, rfl⟩ := heq
    simp [hd, htw.1, htw.2]
  · simp_all

theorem wfIntPart_cases (ip : List Char) (h : wfIntPart ip = true) :
    ip = ['0'] ∨ ((∀ c ∈ ip, c.isDigit = true) ∧ ∃ c cs, ip = c :: cs ∧ c ≠ '0') := by
  unfold wfIntPart at h
  rw [Bool.or_eq_true] at h
  rcases h with h | h
  · left
    exact of_decide_eq_true h
  · right
    rw [Bool.and_eq_true, Bool.and_eq_true] at h
    obtain ⟨⟨hall, hne⟩, hhd⟩ := h
    have hall2 : ∀ c ∈ ip, c.isDigit = true := by
      rw [List.all_eq_true] at hall
      exact hall
    refine ⟨hall2, ?_⟩
    cases ip with
    | nil => cases hne
    | cons c cs =>
      refine ⟨c, cs, rfl, ?_⟩
      simpa using of_decide_eq_true hhd

theorem wfIntPart_head (ip : List Char) (h : wfIntPart ip = true) :
    ∃ c cs, ip = c :: cs ∧ c.isDigit = true := by
  rcases wfIntPart_cases ip h with rfl | ⟨hall, c, cs, rfl, _⟩
  · exact ⟨'0', [], rfl, by decide⟩
  · exact ⟨c, cs, rfl, hall c (List.mem_cons_self c cs)⟩

theorem lexIntPart_of_wf (ip rest : List Char) (hip : wfIntPart ip = true)
    (hnd : ∀ d bs, rest = d :: bs → d.isDigit = false) :
    lexIntPart (ip ++ rest) = some (ip, rest) := by
  rcases wfIntPart_cases ip hip with rfl | ⟨hall, c, cs, rfl, hc0⟩
  · rfl
  · exact lexIntPart_pos c cs rest hc0 (hall c (List.mem_cons_self c cs))
      (fun d hd => hall d (List.mem_cons_of_mem c hd)) hnd

theorem lexNumber_cons_ne (c : Char) (r : List Char) (h : c ≠ '-') :
    lexNumber (c :: r) = lexNumAfterSign false (c :: r) := by
  unfold lexNumber
  split
  · next heq =>
    rw [List.cons.injEq] at heq
    exact absurd heq.1 h
  · rfl

theorem lexNumAfterSign_int (neg : Bool) (ip r : List Char) (hip : wfIntPart ip = true)
    (hr : guardHead r = true) :
    lexNumAfterSign neg (ip ++ r) = some (.jint (intOfParts neg ip), r) := by
  unfold lexNumAfterSign
  rw [lexIntPart_of_wf ip r hip (guard_head_not_digit r hr)]
  simp only []
  rw [lexFrac_guard r hr, lexExp_guard r hr]
  rfl

theorem lexNumAfterSign_fin (neg : Bool) (ip fr : List Char) (eneg : Bool) (ex r : List Char)
    (hwf : wfNum (.fin neg ip fr eneg ex) = true) (hr : guardHead r = true) :
    lexNumAfterSign neg (ip ++ ((if fr.isEmpty then [] else '.' :: fr)
      ++ ((if ex.isEmpty then [] else 'e' :: ((if eneg then ['-'] else []) ++ ex)) ++ r)))
      = some (.jnum (.fin neg ip fr eneg ex), r) := by
  unfold wfNum at hwf
  simp only [Bool.and_eq_true] at hwf
  obtain ⟨⟨⟨⟨hip, hfr⟩, hex⟩, hfe⟩, hee⟩ := hwf
  rw [List.all_eq_true] at hfr hex
  cases fr with
  | nil =>
    cases ex with
    | nil => simp at hfe
    | cons e1 es =>
      have he1 : e1.isDigit = true := hex e1 (List.mem_cons_self e1 es)
      have hes : ∀ x ∈ es, x.isDigit = true := fun x hx => hex x (List.mem_cons_of_mem e1 hx)
      cases eneg with
      | true =>
        show lexNumAfterSign neg (ip ++ ('e' :: '-' :: e1 :: (es ++ r)))
          = some (.jnum (.fin neg ip [] true (e1 :: es)), r)
        unfold lexNumAfterSign
        rw [lexIntPart_of_wf ip ('e' :: '-' :: e1 :: (es ++ r)) hip
          (by intro x bs he; rw [List.cons.injEq] at he; rw [← he.1]; rfl)]
        simp only []
        rw [lexFrac_not_dot 'e' ('-' :: e1 :: (es ++ r)) (by decide)]
        rw [lexExp_neg e1 es r he1 hes (guard_head_not_digit r hr)]
        rfl
      | false =>
        show lexNumAfterSign neg (ip ++ ('e' :: e1 :: (es ++ r)))
          = some (.jnum (.fin neg ip [] false (e1 :: es)), r)
        unfold lexNumAfterSign
        rw [lexIntPart_of_wf ip ('e' :: e1 :: (es ++ r)) hip
          (by intro x bs he; rw [List.cons.injEq] at he; rw [← he.1]; rfl)]
        simp only []
        rw [lexFrac_not_dot 'e' (e1 :: (es ++ r)) (by decide)]
        rw [lexExp_pos e1 es r he1 hes (guard_head_not_digit r hr)]
        rfl
  | cons d ds =>
    have hd : d.isDigit = true := hfr d (List.mem_cons_self d ds)
    have hds : ∀ x ∈ ds, x.isDigit = true := fun x hx => hfr x (List.mem_cons_of_mem d hx)
    cases ex with
    | nil =>
      have hen : eneg = false := by
        simp at hee
        exact hee
      subst hen
      show lexNumAfterSign neg (ip ++ ('.' :: d :: (ds ++ r)))
        = some (.jnum (.fin neg ip (d :: ds) false []), r)
      unfold lexNumAfterSign
      rw [lexIntPart_of_wf ip ('.' :: d :: (ds ++ r)) hip
        (by intro x bs he; rw [List.cons.injEq] at he; rw [← he.1]; rfl)]
      simp only []
      rw [lexFrac_digits d ds r hd hds (guard_head_not_digit r hr)]
      rw [lexExp_guard r hr]
      rfl
    | cons e1 es =>
      have he1 : e1.isDigit = true := hex e1 (List.mem_cons_self e1 es)
      have hes : ∀ x ∈ es, x.isDigit = true := fun x hx => hex x (List.mem_cons_of_mem e1 hx)
      cases eneg with
      | true =>
        show lexNumAfterSign neg (ip ++ ('.' :: d :: (ds ++ ('e' :: '-' :: e1 :: (es ++ r)))))
          = some (.jnum (.fin neg ip (d :: ds) true (e1 :: es)), r)
        unfold lexNumAfterSign
        rw [lexIntPart_of_wf ip ('.' :: d :: (ds ++ ('e' :: '-' :: e1 :: (es ++ r)))) hip
          (by intro x bs he; rw [List.cons.injEq] at he; rw [← he.1]; rfl)]
        simp only []
        rw [lexFrac_digits d ds ('e' :: '-' :: e1 :: (es ++ r)) hd hds
          (by intro x bs he; rw [List.cons.injEq] at he; rw [← he.1]; rfl)]
        rw [lexExp_neg e1 es r he1 hes (guard_head_not_digit r hr)]
        rfl
      | false =>
        show lexNumAfterSign neg (ip ++ ('.' :: d :: (ds ++ ('e' :: e1 :: (es ++ r)))))
          = some (.jnum (.fin neg ip (d :: ds) false (e1 :: es)), r)
        unfold lexNumAfterSign
        rw [lexIntPart_of_wf ip ('.' :: d :: (ds ++ ('e' :: e1 :: (es ++ r)))) hip
          (by intro x bs he; rw [List.cons.injEq] at he; rw [← he.1]; rfl)]
        simp only []
        rw [lexFrac_digits d ds ('e' :: e1 :: (es ++ r)) hd hds
          (by intro x bs he; rw [List.cons.injEq] at he; rw [← he.1]; rfl)]
        rw [lexExp_pos e1 es r he1 hes (guard_head_not_digit r hr)]
        rfl

/-! ### C2: string round trip -/

theorem parseJStrRaw_other (c : Char) (r : List Char) (h1 : c ≠ '"') (h2 : c ≠ '\\')
    (h3 : ¬ c.toNat < 32) :
    parseJStrRaw (c :: r) = (parseJStrRaw r).map (fun p => (c.toNat :: p.1, p.2)) := by
  conv_lhs => rw [parseJStrRaw.eq_def]
  dsimp only
  rw [if_neg h1, if_neg h2, if_neg h3]

theorem hex4_esc (n : Nat) (h : n < 32) :
    hex4 '0' '0' (hexDigitChar (n / 16)) (hexDigitChar (n % 16)) = some n := by
  unfold hex4
  rw [show hexVal '0' = some 0 from rfl]
  rw [hexVal_hexDigitChar (n / 16) (by omega), hexVal_hexDigitChar (n % 16) (by omega)]
  show some (4096 * 0 + 256 * 0 + 16 * (n / 16) + n % 16) = some n
  congr 1
  omega

theorem raw_escStr (s : List Char) (r : List Char) :
    parseJStrRaw (escStr s ++ '"' :: r) = .ok (s.map Char.toNat, r) := by
  induction s with
  | nil => rfl
  | cons c cs ih =>
    show parseJStrRaw ((escChar c ++ escStr cs) ++ '"' :: r) = _
    rw [List.append_assoc]
    by_cases h1 : c = '"'
    · subst h1
      show (parseJStrRaw (escStr cs ++ '"' :: r)).map (fun p => (34 :: p.1, p.2)) = _
      rw [ih]; rfl
    by_cases h2 : c = '\\'
    · subst h2
      show (parseJStrRaw (escStr cs ++ '"' :: r)).map (fun p => (92 :: p.1, p.2)) = _
      rw [ih]; rfl
    by_cases h3 : c = '\n'
    · subst h3
      show (parseJStrRaw (escStr cs ++ '"' :: r)).map (fun p => (10 :: p.1, p.2)) = _
      rw [ih]; rfl
    by_cases h4 : c = '\t'
    · subst h4
      show (parseJStrRaw (escStr cs ++ '"' :: r)).map (fun p => (9 :: p.1, p.2)) = _
      rw [ih]; rfl
    by_cases h5 : c = '\r'
    · subst h5
      show (parseJStrRaw (escStr cs ++ '"' :: r)).map (fun p => (13 :: p.1, p.2)) = _
      rw [ih]; rfl
    by_cases h6 : c = '\x08'
    · subst h6
      show (parseJStrRaw (escStr cs ++ '"' :: r)).map (fun p => (8 :: p.1, p.2)) = _
      rw [ih]; rfl
    by_cases h7 : c = '\x0c'
    · subst h7
      show (parseJStrRaw (escStr cs ++ '"' :: r)).map (fun p => (12 :: p.1, p.2)) = _
      rw [ih]; rfl
    by_cases hlt : c.toNat < 32
    · have hesc : escChar c
          = ['\\', 'u', '0', '0', hexDigitChar (c.toNat / 16), hexDigitChar (c.toNat % 16)] := by
        unfold escChar
        rw [if_neg h1, if_neg h2, if_neg h3, if_neg h4, if_neg h5, if_neg h6, if_neg h7,
          if_pos hlt]
      rw [hesc]
      show (match hex4 '0' '0' (hexDigitChar (c.toNat / 16)) (hexDigitChar (c.toNat % 16)) with
            | none => Except.error PyErr.jsonDecodeError
            | some n => (parseJStrRaw (escStr cs ++ '"' :: r)).map
                (fun p : List Nat × List Char => (n :: p.1, p.2)))
          = _
      rw [hex4_esc c.toNat hlt]
      dsimp only
      rw [ih]
      rfl
    · have hesc : escChar c = [c] := by
        unfold escChar
        rw [if_neg h1, if_neg h2, if_neg h3, if_neg h4, if_neg h5, if_neg h6, if_neg h7,
          if_neg hlt]
      rw [hesc]
      show parseJStrRaw (c :: (escStr cs ++ '"' :: r)) = _
      rw [parseJStrRaw_other c _ h1 h2 hlt, ih]
      rfl

theorem combineSurrogates_map : ∀ (s : List Char), combineSurrogates (List.map Char.toNat s) = s
  | [] => rfl
  | [c] => by
    show combineSurrogates [c.toNat] = [c]
    rw [combineSurrogates, Char.ofNat_toNat]
  | c1 :: c2 :: rest => by
    have ih := combineSurrogates_map (c2 :: rest)
    have hno : ¬ (55296 ≤ c1.toNat ∧ c1.toNat ≤ 56319 ∧ 56320 ≤ c2.toNat ∧ c2.toNat ≤ 57343) :=
      fun h => char_not_surrogate c1 ⟨h.1, h.2.1⟩
    show combineSurrogates (c1.toNat :: c2.toNat :: List.map Char.toNat rest) = c1 :: c2 :: rest
    rw [combineSurrogates, if_neg hno, Char.ofNat_toNat]
    show c1 :: combineSurrogates (List.map Char.toNat (c2 :: rest)) = _
    rw [ih]

theorem parseJString_escStr (s r : List Char) :
    parseJString (escStr s ++ '"' :: r) = .ok (s, r) := by
  unfold parseJString
  rw [raw_escStr]
  show Except.ok (combineSurrogates (List.map Char.toNat s), r) = _
  rw [combineSurrogates_map]

/-! ### C2: scanner arm lemmas -/

theorem skipWs_cons_of (c : Char) (h : isJWs c = false) (X : List Char) :
    skipWs (c :: X) = c :: X := by
  simp [skipWs, List.dropWhile_cons, h]

theorem parseJ_val_quote (f : Nat) (B : List Char) :
    parseJ (f + 1) .val ('"' :: B) = (parseJString B).map (fun p => .rv (.jstr p.1) p.2) := rfl

theorem parseJ_val_atom (f : Nat) (c : Char) (r : List Char)
    (h1 : c ≠ '"') (h2 : c ≠ '{') (h3 : c ≠ '[') :
    parseJ (f + 1) .val (c :: r) = parseJAtom (c :: r) := by
  show (if c = '"' then (parseJString r).map (fun p => PRes.rv (.jstr p.1) p.2)
        else if c = '{' then
          (match skipWs r with
           | '}' :: r2 => .ok (.rv (.jobj .onil) r2)
           | t1 =>
             match parseJ f .members t1 with
             | .ok (.rm ms rest) => .ok (.rv (.jobj ms) rest)
             | .ok _ => .error .jsonDecodeError
             | .error e => .error e)
        else if c = '[' then
          (match skipWs r with
           | ']' :: r2 => .ok (.rv (.jarr .anil) r2)
           | t1 =>
             match parseJ f .items t1 with
             | .ok (.ri es rest) => .ok (.rv (.jarr es) rest)
             | .ok _ => .error .jsonDecodeError
             | .error e => .error e)
        else parseJAtom (c :: r)) = parseJAtom (c :: r)
  rw [if_neg h1, if_neg h2, if_neg h3]

theorem parseJ_val_brace (f : Nat) (t : List Char) (c : Char) (X : List Char)
    (hsk : skipWs t = c :: X) (hc : c ≠ '}')
    (ms : JObj) (rest : List Char) (hm : parseJ f .members (c :: X) = .ok (.rm ms rest)) :
    parseJ (f + 1) .val ('{' :: t) = .ok (.rv (.jobj ms) rest) := by
  show (match skipWs t with
        | '}' :: r2 => Except.ok (PRes.rv (.jobj .onil) r2)
        | t1 =>
          match parseJ f .members t1 with
          | .ok (.rm ms rest) => Except.ok (PRes.rv (.jobj ms) rest)
          | .ok _ => Except.error PyErr.jsonDecodeError
          | .error e => Except.error e) = Except.ok (PRes.rv (.jobj ms) rest)
  rw [hsk]
  split
  · next heq =>
    rw [List.cons.injEq] at heq
    exact absurd heq.1 hc
  · rw [hm]

theorem parseJ_val_bracket (f : Nat) (t : List Char) (c : Char) (X : List Char)
    (hsk : skipWs t = c :: X) (hc : c ≠ ']')
    (es : JArr) (rest : List Char) (hit : parseJ f .items (c :: X) = .ok (.ri es rest)) :
    parseJ (f + 1) .val ('[' :: t) = .ok (.rv (.jarr es) rest) := by
  show (match skipWs t with
        | ']' :: r2 => Except.ok (PRes.rv (.jarr .anil) r2)
        | t1 =>
          match parseJ f .items t1 with
          | .ok (.ri es rest) => Except.ok (PRes.rv (.jarr es) rest)
          | .ok _ => Except.error PyErr.jsonDecodeError
          | .error e => Except.error e) = Except.ok (PRes.rv (.jarr es) rest)
  rw [hsk]
  split
  · next heq =>
    rw [List.cons.injEq] at heq
    exact absurd heq.1 hc
  · rw [hit]

theorem dropLit_cons_ne (l : Char) (ls : List Char) (c : Char) (cs : List Char) (h : c ≠ l) :
    dropLit (l :: ls) (c :: cs) = none := by
  simp [dropLit, h]

theorem parseJAtom_num (c : Char) (r : List Char) (hc : c.isDigit = true)
    (v : Json) (rest : List Char) (hn : lexNumber (c :: r) = some (v, rest)) :
    parseJAtom (c :: r) = .ok (.rv v rest) := by
  unfold parseJAtom
  rw [show dropLit (("true").data) (c :: r) = none from
      dropLit_cons_ne 't' (("rue").data) c r (digit_ne hc (by decide))]
  rw [show dropLit (("false").data) (c :: r) = none from
      dropLit_cons_ne 'f' (("alse").data) c r (digit_ne hc (by decide))]
  rw [show dropLit (("null").data) (c :: r) = none from
      dropLit_cons_ne 'n' (("ull").data) c r (digit_ne hc (by decide))]
  rw [show dropLit (("NaN").data) (c :: r) = none from
      dropLit_cons_ne 'N' (("aN").data) c r (digit_ne hc (by decide))]
  rw [show dropLit (("Infinity").data) (c :: r) = none from
      dropLit_cons_ne 'I' (("nfinity").data) c r (digit_ne hc (by decide))]
  rw [show dropLit (("-Infinity").data) (c :: r) = none from
      dropLit_cons_ne '-' (("Infinity").data) c r (digit_ne hc (by decide))]
  rw [hn]

theorem parseJAtom_dash (c : Char) (r : List Char) (hc : c.isDigit = true)
    (v : Json) (rest : List Char) (hn : lexNumAfterSign true (c :: r) = some (v, rest)) :
    parseJAtom ('-' :: c :: r) = .ok (.rv v rest) := by
  unfold parseJAtom
  rw [show dropLit (("true").data) ('-' :: c :: r) = none from rfl]
  rw [show dropLit (("false").data) ('-' :: c :: r) = none from rfl]
  rw [show dropLit (("null").data) ('-' :: c :: r) = none from rfl]
  rw [show dropLit (("NaN").data) ('-' :: c :: r) = none from rfl]
  rw [show dropLit (("Infinity").data) ('-' :: c :: r) = none from rfl]
  rw [show dropLit (("-Infinity").data) ('-' :: c :: r) = none from
      dropLit_cons_ne 'I' (("nfinity").data) c r (digit_ne hc (by decide))]
  rw [show lexNumber ('-' :: c :: r) = lexNumAfterSign true (c :: r) from rfl]
  rw [hn]

theorem parseJ_members_last (f : Nat) (B Y r4 : List Char) (k : List Char) (v : Json)
    (h1 : parseJString B = .ok (k, ':' :: Y))
    (h2 : parseJ f .val (skipWs Y) = .ok (.rv v ('}' :: r4))) :
    parseJ (f + 1) .members ('"' :: B) = .ok (.rm (.ocons k v .onil) r4) := by
  show (match parseJString B with
        | .error e => Except.error e
        | .ok (k, r1) =>
          match skipWs r1 with
          | ':' :: r2 =>
            (match parseJ f .val (skipWs r2) with
             | .error e => Except.error e
             | .ok (.rv v r3) =>
               (match skipWs r3 with
                | ',' :: r4 =>
                  (match parseJ f .members (skipWs r4) with
                   | .ok (.rm ms rest) => Except.ok (PRes.rm (.ocons k v ms) rest)
                   | .ok _ => Except.error PyErr.jsonDecodeError
                   | .error e => Except.error e)
                | '}' :: r4 => Except.ok (PRes.rm (.ocons k v .onil) r4)
                | _ => Except.error PyErr.jsonDecodeError)
             | .ok _ => Except.error PyErr.jsonDecodeError)
          | _ => Except.error PyErr.jsonDecodeError)
      = Except.ok (PRes.rm (.ocons k v .onil) r4)
  rw [h1]
  dsimp only
  show (match parseJ f .val (skipWs Y) with
        | .error e => Except.error e
        | .ok (.rv v r3) =>
          (match skipWs r3 with
           | ',' :: r4 =>
             (match parseJ f .members (skipWs r4) with
              | .ok (.rm ms rest) => Except.ok (PRes.rm (.ocons k v ms) rest)
              | .ok _ => Except.error PyErr.jsonDecodeError
              | .error e => Except.error e)
           | '}' :: r4 => Except.ok (PRes.rm (.ocons k v .onil) r4)
           | _ => Except.error PyErr.jsonDecodeError)
        | .ok _ => Except.error PyErr.jsonDecodeError)
      = Except.ok (PRes.rm (.ocons k v .onil) r4)
  rw [h2]
  rfl

theorem parseJ_members_cons (f : Nat) (B Y r4 : List Char) (k : List Char) (v : Json)
    (ms : JObj) (rest : List Char)
    (h1 : parseJString B = .ok (k, ':' :: Y))
    (h2 : parseJ f .val (skipWs Y) = .ok (.rv v (',' :: r4)))
    (h3 : parseJ f .members (skipWs r4) = .ok (.rm ms rest)) :
    parseJ (f + 1) .members ('"' :: B) = .ok (.rm (.ocons k v ms) rest) := by
  show (match parseJString B with
        | .error e => Except.error e
        | .ok (k, r1) =>
          match skipWs r1 with
          | ':' :: r2 =>
            (match parseJ f .val (skipWs r2) with
             | .error e => Except.error e
             | .ok (.rv v r3) =>
               (match skipWs r3 with
                | ',' :: r4 =>
                  (match parseJ f .members (skipWs r4) with
                   | .ok (.rm ms rest) => Except.ok (PRes.rm (.ocons k v ms) rest)
                   | .ok _ => Except.error PyErr.jsonDecodeError
                   | .error e => Except.error e)
                | '}' :: r4 => Except.ok (PRes.rm (.ocons k v .onil) r4)
                | _ => Except.error PyErr.jsonDecodeError)
             | .ok _ => Except.error PyErr.jsonDecodeError)
          | _ => Except.error PyErr.jsonDecodeError)
      = Except.ok (PRes.rm (.ocons k v ms) rest)
  rw [h1]
  dsimp only
  show (match parseJ f .val (skipWs Y) with
        | .error e => Except.error e
        | .ok (.rv v r3) =>
          (match skipWs r3 with
           | ',' :: r4 =>
             (match parseJ f .members (skipWs r4) with
              | .ok (.rm ms2 rest2) => Except.ok (PRes.rm (.ocons k v ms2) rest2)
              | .ok _ => Except.error PyErr.jsonDecodeError
              | .error e => Except.error e)
           | '}' :: r4 => Except.ok (PRes.rm (.ocons k v .onil) r4)
           | _ => Except.error PyErr.jsonDecodeError)
        | .ok _ => Except.error PyErr.jsonDecodeError)
      = Except.ok (PRes.rm (.ocons k v ms) rest)
  rw [h2]
  dsimp only
  show (match parseJ f .members (skipWs r4) with
        | .ok (.rm ms2 rest2) => Except.ok (PRes.rm (.ocons k v ms2) rest2)
        | .ok _ => Except.error PyErr.jsonDecodeError
        | .error e => Except.error e)
      = Except.ok (PRes.rm (.ocons k v ms) rest)
  rw [h3]

theorem parseJ_items_last (f : Nat) (t : List Char) (v : Json) (r2 : List Char)
    (h : parseJ f .val t = .ok (.rv v (']' :: r2))) :
    parseJ (f + 1) .items t = .ok (.ri (.acons v .anil) r2) := by
  show (match parseJ f .val t with
        | .error e => Except.error e
        | .ok (.rv v r1) =>
          (match skipWs r1 with
           | ',' :: r2 =>
             (match parseJ f .items (skipWs r2) with
              | .ok (.ri es rest) => Except.ok (PRes.ri (.acons v es) rest)
              | .ok _ => Except.error PyErr.jsonDecodeError
              | .error e => Except.error e)
           | ']' :: r2 => Except.ok (PRes.ri (.acons v .anil) r2)
           | _ => Except.error PyErr.jsonDecodeError)
        | .ok _ => Except.error PyErr.jsonDecodeError)
      = Except.ok (PRes.ri (.acons v .anil) r2)
  rw [h]
  rfl

theorem parseJ_items_cons (f : Nat) (t : List Char) (v : Json) (r2 : List Char)
    (es : JArr) (rest : List Char)
    (h : parseJ f .val t = .ok (.rv v (',' :: r2)))
    (h2 : parseJ f .items (skipWs r2) = .ok (.ri es rest)) :
    parseJ (f + 1) .items t = .ok (.ri (.acons v es) rest) := by
  show (match parseJ f .val t with
        | .error e => Except.error e
        | .ok (.rv v r1) =>
          (match skipWs r1 with
           | ',' :: r2 =>
             (match parseJ f .items (skipWs r2) with
              | .ok (.ri es rest) => Except.ok (PRes.ri (.acons v es) rest)
              | .ok _ => Except.error PyErr.jsonDecodeError
              | .error e => Except.error e)
           | ']' :: r2 => Except.ok (PRes.ri (.acons v .anil) r2)
           | _ => Except.error PyErr.jsonDecodeError)
        | .ok _ => Except.error PyErr.jsonDecodeError)
      = Except.ok (PRes.ri (.acons v es) rest)
  rw [h]
  dsimp only
  show (match parseJ f .items (skipWs r2) with
        | .ok (.ri es2 rest2) => Except.ok (PRes.ri (.acons v es2) rest2)
        | .ok _ => Except.error PyErr.jsonDecodeError
        | .error e => Except.error e)
      = Except.ok (PRes.ri (.acons v es) rest)
  rw [h2]

/-! ### C2: serialized-form structure -/

theorem dump_head (v : Json) (hwf : wfJson v = true) :
    ∃ c cs, dumpJson v = c :: cs ∧ isJWs c = false ∧ c ≠ ']' := by
  cases v with
  | jnull => exact ⟨'n', (("ull").data), rfl, rfl, by decide⟩
  | jbool b =>
    cases b with
    | true => exact ⟨'t', (("rue").data), rfl, rfl, by decide⟩
    | false => exact ⟨'f', (("alse").data), rfl, rfl, by decide⟩
  | jint n =>
    show ∃ c cs, intRepr n = c :: cs ∧ isJWs c = false ∧ c ≠ ']'
    unfold intRepr
    by_cases hn : n < 0
    · rw [if_pos hn]
      exact ⟨'-', natDigits n.natAbs, rfl, rfl, by decide⟩
    · rw [if_neg hn]
      cases hd : natDigits n.toNat with
      | nil => exact absurd hd (natDigits_ne_nil _)
      | cons c cs =>
        have hc : c.isDigit = true := by
          have := natDigits_all_digits n.toNat c
          rw [hd] at this
          exact this (List.mem_cons_self c cs)
        exact ⟨c, cs, rfl, digit_not_jws hc, digit_ne hc (by decide)⟩
  | jnum x =>
    cases x with
    | nan => exact ⟨'N', (("aN").data), rfl, rfl, by decide⟩
    | inf => exact ⟨'I', (("nfinity").data), rfl, rfl, by decide⟩
    | ninf => exact ⟨'-', (("Infinity").data), rfl, rfl, by decide⟩
    | fin neg ip fr eneg ex =>
      have hip : wfIntPart ip = true := by
        have h2 : wfNum (.fin neg ip fr eneg ex) = true := hwf
        unfold wfNum at h2
        simp only [Bool.and_eq_true] at h2
        exact h2.1.1.1.1
      obtain ⟨c, cs, hcs, hc⟩ := wfIntPart_head ip hip
      cases neg with
      | true =>
        exact ⟨'-', ((ip ++ (if fr.isEmpty then [] else '.' :: fr))
          ++ (if ex.isEmpty then [] else 'e' :: ((if eneg then ['-'] else []) ++ ex))),
          rfl, rfl, by decide⟩
      | false =>
        refine ⟨c, ((cs ++ (if fr.isEmpty then [] else '.' :: fr))
          ++ (if ex.isEmpty then [] else 'e' :: ((if eneg then ['-'] else []) ++ ex))), ?_,
          digit_not_jws hc, digit_ne hc (by decide)⟩
        rw [hcs]
        rfl
  | jstr s => exact ⟨'"', escStr s ++ ['"'], rfl, rfl, by decide⟩
  | jarr es => exact ⟨'[', dumpArr es ++ [']'], rfl, rfl, by decide⟩
  | jobj ms => exact ⟨'{', dumpObj ms ++ ['}'], rfl, rfl, by decide⟩

theorem dump_len_pos (v : Json) (hwf : wfJson v = true) : 0 < (dumpJson v).length := by
  obtain ⟨c, cs, hd, _, _⟩ := dump_head v hwf
  rw [hd]
  simp

theorem skipWs_dump (v : Json) (hwf : wfJson v = true) (r : List Char) :
    skipWs (dumpJson v ++ r) = dumpJson v ++ r := by
  obtain ⟨c, cs, hd, hws, _⟩ := dump_head v hwf
  rw [hd, List.cons_append]
  exact skipWs_cons_of c hws (cs ++ r)

theorem dumpArr_cons (x : Json) (tl : JArr) :
    ∃ w, dumpArr (.acons x tl) = dumpJson x ++ w ∧
      (∀ d bs, w = d :: bs → d = ',') := by
  cases tl with
  | anil =>
    refine ⟨[], by rw [List.append_nil, dumpArr], ?_⟩
    intro d bs h
    cases h
  | acons y tl2 =>
    refine ⟨',' :: dumpArr (.acons y tl2), rfl, ?_⟩
    intro d bs h
    rw [List.cons.injEq] at h
    exact h.1.symm

theorem dumpObj_cons_head (k : List Char) (v : Json) (tl : JObj) :
    ∃ B, dumpObj (.ocons k v tl) = '"' :: B := by
  cases tl with
  | onil => exact ⟨_, rfl⟩
  | ocons k2 v2 tl2 => exact ⟨_, rfl⟩

theorem intOfParts_neg (n : Int) (hn : n < 0) : intOfParts true (natDigits n.natAbs) = n := by
  show -(digitsToNat (natDigits n.natAbs) : Int) = n
  rw [digitsToNat_natDigits]
  omega

theorem intOfParts_nonneg (n : Int) (hn : 0 ≤ n) :
    intOfParts false (natDigits n.toNat) = n := by
  show ((digitsToNat (natDigits n.toNat) : Nat) : Int) = n
  rw [digitsToNat_natDigits]
  omega

/-! ### C2: the round trip itself -/

mutual

theorem rt_val : ∀ (v : Json), wfJson v = true → ∀ (r : List Char), guardHead r = true →
    ∀ (f : Nat), (dumpJson v).length ≤ f →
    parseJ f .val (dumpJson v ++ r) = .ok (.rv v r)
  | .jnull, _, r, _, f, hf => by
    cases f with
    | zero => exact absurd hf (by decide)
    | succ f2 => rfl
  | .jbool true, _, r, _, f, hf => by
    cases f with
    | zero => exact absurd hf (by decide)
    | succ f2 => rfl
  | .jbool false, _, r, _, f, hf => by
    cases f with
    | zero => exact absurd hf (by decide)
    | succ f2 => rfl
  | .jnum .nan, _, r, _, f, hf => by
    cases f with
    | zero => exact absurd hf (by decide)
    | succ f2 => rfl
  | .jnum .inf, _, r, _, f, hf => by
    cases f with
    | zero => exact absurd hf (by decide)
    | succ f2 => rfl
  | .jnum .ninf, _, r, _, f, hf => by
    cases f with
    | zero => exact absurd hf (by decide)
    | succ f2 => rfl
  | .jstr s, _, r, _, f, hf => by
    cases f with
    | zero =>
      have hp := dump_len_pos (.jstr s) (by rw [wfJson])
      omega
    | succ f2 =>
      have e : dumpJson (.jstr s) ++ r = '"' :: (escStr s ++ ('"' :: r)) := by
        rw [dumpJson, List.append_assoc]
        rfl
      rw [e, parseJ_val_quote, parseJString_escStr]
      rfl
  | .jint n, _, r, hr, f, hf => by
    cases f with
    | zero =>
      have hp := dump_len_pos (.jint n) (by rw [wfJson])
      omega
    | succ f2 =>
      rcases Int.lt_or_le n 0 with hn | hn
      · have hd : dumpJson (.jint n) = '-' :: natDigits n.natAbs := by
          rw [dumpJson]
          unfold intRepr
          rw [if_pos hn]
        cases hnd : natDigits n.natAbs with
        | nil => exact absurd hnd (natDigits_ne_nil _)
        | cons c cs =>
          have hallc : ∀ x ∈ c :: cs, x.isDigit = true := by
            rw [← hnd]
            exact natDigits_all_digits _
          have hc : c.isDigit = true := hallc c (List.mem_cons_self c cs)
          have h0 := lexNumAfterSign_int true (natDigits n.natAbs) r (wfIntPart_natDigits _) hr
          rw [intOfParts_neg n hn, hnd] at h0
          have hg : parseJ (f2 + 1) .val ('-' :: c :: (cs ++ r)) = .ok (.rv (.jint n) r) := by
            rw [parseJ_val_atom f2 '-' (c :: (cs ++ r)) (by decide) (by decide) (by decide)]
            exact parseJAtom_dash c (cs ++ r) hc _ _ h0
          rw [hd, hnd]
          exact hg
      · have hd : dumpJson (.jint n) = natDigits n.toNat := by
          rw [dumpJson]
          unfold intRepr
          rw [if_neg (by omega)]
        cases hnd : natDigits n.toNat with
        | nil => exact absurd hnd (natDigits_ne_nil _)
        | cons c cs =>
          have hallc : ∀ x ∈ c :: cs, x.isDigit = true := by
            rw [← hnd]
            exact natDigits_all_digits _
          have hc : c.isDigit = true := hallc c (List.mem_cons_self c cs)
          have h0 := lexNumAfterSign_int false (natDigits n.toNat) r (wfIntPart_natDigits _) hr
          rw [intOfParts_nonneg n hn, hnd] at h0
          have hg : parseJ (f2 + 1) .val (c :: (cs ++ r)) = .ok (.rv (.jint n) r) := by
            rw [parseJ_val_atom f2 c (cs ++ r) (digit_ne hc (by decide)) (digit_ne hc (by decide))
              (digit_ne hc (by decide))]
            refine parseJAtom_num c (cs ++ r) hc _ _ ?_
            rw [lexNumber_cons_ne c (cs ++ r) (digit_ne hc (by decide))]
            exact h0
          rw [hd, hnd]
          exact hg
  | .jnum (.fin neg ip fr eneg ex), hwf, r, hr, f, hf => by
    have hwfn : wfNum (.fin neg ip fr eneg ex) = true := by
      rw [wfJson] at hwf
      exact hwf
    cases f with
    | zero =>
      have hp := dump_len_pos (.jnum (.fin neg ip fr eneg ex)) (by rw [wfJson]; exact hwfn)
      omega
    | succ f2 =>
      have hipwf : wfIntPart ip = true := by
        unfold wfNum at hwfn
        simp only [Bool.and_eq_true] at hwfn
        exact hwfn.1.1.1.1
      obtain ⟨c, cs, hipeq, hc⟩ := wfIntPart_head ip hipwf
      subst hipeq
      have hlex := lexNumAfterSign_fin neg (c :: cs) fr eneg ex r hwfn hr
      rw [dumpJson, dumpNum]
      simp only [List.append_assoc]
      cases neg with
      | true =>
        have hg : parseJ (f2 + 1) .val ('-' :: c :: (cs ++ ((if fr.isEmpty then [] else '.' :: fr)
            ++ ((if ex.isEmpty then [] else 'e' :: ((if eneg then ['-'] else []) ++ ex)) ++ r))))
            = .ok (.rv (.jnum (.fin true (c :: cs) fr eneg ex)) r) := by
          rw [parseJ_val_atom f2 '-' _ (by decide) (by decide) (by decide)]
          exact parseJAtom_dash c _ hc _ _ hlex
        exact hg
      | false =>
        have hg : parseJ (f2 + 1) .val (c :: (cs ++ ((if fr.isEmpty then [] else '.' :: fr)
            ++ ((if ex.isEmpty then [] else 'e' :: ((if eneg then ['-'] else []) ++ ex)) ++ r))))
            = .ok (.rv (.jnum (.fin false (c :: cs) fr eneg ex)) r) := by
          rw [parseJ_val_atom f2 c _ (digit_ne hc (by decide)) (digit_ne hc (by decide))
            (digit_ne hc (by decide))]
          refine parseJAtom_num c _ hc _ _ ?_
          rw [lexNumber_cons_ne c _ (digit_ne hc (by decide))]
          exact hlex
        exact hg
  | .jarr es, hwf, r, hr, f, hf => by
    have hwfa : wfArr es = true := by
      rw [wfJson] at hwf
      exact hwf
    cases f with
    | zero =>
      have hp := dump_len_pos (.jarr es) (by rw [wfJson]; exact hwfa)
      omega
    | succ f2 =>
      rw [dumpJson, List.append_assoc, List.cons_append]
      cases es with
      | anil =>
        rw [dumpArr]
        rfl
      | acons x tl =>
        have hx : wfJson x = true ∧ wfArr tl = true := by
          rw [wfArr, Bool.and_eq_true] at hwfa
          exact hwfa
        obtain ⟨w, hw, _⟩ := dumpArr_cons x tl
        obtain ⟨ch, Xs, hhd, hws, hne⟩ := dump_head x hx.1
        have hcons : dumpArr (JArr.acons x tl) ++ (']' :: r) = ch :: ((Xs ++ w) ++ (']' :: r)) := by
          rw [hw, hhd]
          simp [List.append_assoc]
        have hskip : skipWs (dumpArr (JArr.acons x tl) ++ (']' :: r))
            = ch :: ((Xs ++ w) ++ (']' :: r)) := by
          rw [hcons]
          exact skipWs_cons_of ch hws _
        have hlen : (dumpJson (Json.jarr (JArr.acons x tl))).length
            = (dumpArr (JArr.acons x tl)).length + 2 := by
          rw [dumpJson]
          simp
        have hitems : parseJ f2 .items (ch :: ((Xs ++ w) ++ (']' :: r)))
            = .ok (.ri (.acons x tl) r) := by
          rw [← hcons]
          exact rt_items (.acons x tl) (by intro h; cases h) hwfa r f2 (by omega)
        exact parseJ_val_bracket f2 _ ch ((Xs ++ w) ++ (']' :: r)) hskip hne (.acons x tl) r hitems
  | .jobj ms, hwf, r, hr, f, hf => by
    have hwfo : wfObj ms = true := by
      rw [wfJson] at hwf
      exact hwf
    cases f with
    | zero =>
      have hp := dump_len_pos (.jobj ms) (by rw [wfJson]; exact hwfo)
      omega
    | succ f2 =>
      rw [dumpJson, List.append_assoc, List.cons_append]
      cases ms with
      | onil =>
        rw [dumpObj]
        rfl
      | ocons k v tl =>
        obtain ⟨B, hB⟩ := dumpObj_cons_head k v tl
        have hskip : skipWs (dumpObj (JObj.ocons k v tl) ++ ('}' :: r))
            = '"' :: (B ++ ('}' :: r)) := by
          rw [hB, List.cons_append]
          exact skipWs_cons_of '"' rfl _
        have hlen : (dumpJson (Json.jobj (JObj.ocons k v tl))).length
            = (dumpObj (JObj.ocons k v tl)).length + 2 := by
          rw [dumpJson]
          simp
        have hmem : parseJ f2 .members ('"' :: (B ++ ('}' :: r)))
            = .ok (.rm (.ocons k v tl) r) := by
          rw [show ('"' : Char) :: (B ++ ('}' :: r)) = dumpObj (JObj.ocons k v tl) ++ ('}' :: r) from by
            rw [hB, List.cons_append]]
          exact rt_members (.ocons k v tl) (by intro h; cases h) hwfo r f2 (by omega)
        exact parseJ_val_brace f2 _ '"' (B ++ ('}' :: r)) hskip (by decide) (.ocons k v tl) r hmem

theorem rt_items : ∀ (es : JArr), es ≠ .anil → wfArr es = true → ∀ (r : List Char),
    ∀ (f : Nat), (dumpArr es).length + 1 ≤ f →
    parseJ f .items (dumpArr es ++ (']' :: r)) = .ok (.ri es r)
  | .anil, hne, _, _, _, _ => absurd rfl hne
  | .acons x tl, _, hwfa, r, f, hf => by
    have hx : wfJson x = true ∧ wfArr tl = true := by
      rw [wfArr, Bool.and_eq_true] at hwfa
      exact hwfa
    cases f with
    | zero => omega
    | succ f2 =>
      cases tl with
      | anil =>
        rw [dumpArr]
        have hlen : (dumpArr (JArr.acons x JArr.anil)).length = (dumpJson x).length := by
          rw [dumpArr]
        refine parseJ_items_last f2 _ x r ?_
        exact rt_val x hx.1 (']' :: r) rfl f2 (by omega)
      | acons y tl2 =>
        have hy : wfJson y = true ∧ wfArr tl2 = true := by
          have h2 := hx.2
          rw [wfArr, Bool.and_eq_true] at h2
          exact h2
        rw [dumpArr, List.append_assoc]
        have hlen : (dumpArr (JArr.acons x (JArr.acons y tl2))).length
            = (dumpJson x).length + (1 + (dumpArr (JArr.acons y tl2)).length) := by
          rw [dumpArr]
          simp only [List.length_append, List.length_cons]
          omega
        refine parseJ_items_cons f2 _ x (dumpArr (JArr.acons y tl2) ++ (']' :: r))
          (.acons y tl2) r ?_ ?_
        · exact rt_val x hx.1 (',' :: (dumpArr (JArr.acons y tl2) ++ (']' :: r))) rfl f2 (by omega)
        · have hsk : skipWs (dumpArr (JArr.acons y tl2) ++ (']' :: r))
              = dumpArr (JArr.acons y tl2) ++ (']' :: r) := by
            obtain ⟨w2, hw2, _⟩ := dumpArr_cons y tl2
            rw [hw2, List.append_assoc]
            exact skipWs_dump y hy.1 _
          rw [hsk]
          exact rt_items (.acons y tl2) (by intro h; cases h) hx.2 r f2 (by omega)

theorem rt_members : ∀ (ms : JObj), ms ≠ .onil → wfObj ms = true → ∀ (r : List Char),
    ∀ (f : Nat), (dumpObj ms).length + 1 ≤ f →
    parseJ f .members (dumpObj ms ++ ('}' :: r)) = .ok (.rm ms r)
  | .onil, hne, _, _, _, _ => absurd rfl hne
  | .ocons k v tl, _, hwfo, r, f, hf => by
    have hkv : wfJson v = true ∧ wfObj tl = true := by
      rw [wfObj, Bool.and_eq_true] at hwfo
      exact hwfo
    cases f with
    | zero => omega
    | succ f2 =>
      cases tl with
      | onil =>
        rw [dumpObj]
        have hlen : (dumpObj (JObj.ocons k v JObj.onil)).length
            = (jkey k).length + (dumpJson v).length := by
          rw [dumpObj, List.length_append]
        rw [List.append_assoc]
        refine parseJ_members_last f2
          ((escStr k ++ ('"' :: [':'])) ++ (dumpJson v ++ ('}' :: r)))
          (dumpJson v ++ ('}' :: r)) r k v ?_ ?_
        · have e : (escStr k ++ ('"' :: [':'])) ++ (dumpJson v ++ ('}' :: r))
              = escStr k ++ ('"' :: (':' :: (dumpJson v ++ ('}' :: r)))) := by
            simp [List.append_assoc]
          rw [e]
          exact parseJString_escStr k (':' :: (dumpJson v ++ ('}' :: r)))
        · rw [skipWs_dump v hkv.1]
          exact rt_val v hkv.1 ('}' :: r) rfl f2 (by omega)
      | ocons k2 v2 tl2 =>
        rw [dumpObj]
        have hlen : (dumpObj (JObj.ocons k v (JObj.ocons k2 v2 tl2))).length
            = ((jkey k).length + (dumpJson v).length)
              + (1 + (dumpObj (JObj.ocons k2 v2 tl2)).length) := by
          rw [dumpObj]
          simp only [List.length_append, List.length_cons]
          omega
        rw [List.append_assoc, List.append_assoc]
        refine parseJ_members_cons f2
          ((escStr k ++ ('"' :: [':']))
            ++ (dumpJson v ++ ((',' :: dumpObj (JObj.ocons k2 v2 tl2)) ++ ('}' :: r))))
          (dumpJson v ++ ((',' :: dumpObj (JObj.ocons k2 v2 tl2)) ++ ('}' :: r)))
          (dumpObj (JObj.ocons k2 v2 tl2) ++ ('}' :: r)) k v (.ocons k2 v2 tl2) r ?_ ?_ ?_
        · have e : (escStr k ++ ('"' :: [':']))
              ++ (dumpJson v ++ ((',' :: dumpObj (JObj.ocons k2 v2 tl2)) ++ ('}' :: r)))
              = escStr k ++ ('"' :: (':' :: (dumpJson v
                  ++ ((',' :: dumpObj (JObj.ocons k2 v2 tl2)) ++ ('}' :: r))))) := by
            simp [List.append_assoc]
          rw [e]
          exact parseJString_escStr k _
        · rw [skipWs_dump v hkv.1]
          exact rt_val v hkv.1 (',' :: (dumpObj (JObj.ocons k2 v2 tl2) ++ ('}' :: r))) rfl f2
            (by omega)
        · have hsk : skipWs (dumpObj (JObj.ocons k2 v2 tl2) ++ ('}' :: r))
              = dumpObj (JObj.ocons k2 v2 tl2) ++ ('}' :: r) := by
            obtain ⟨B2, hB2⟩ := dumpObj_cons_head k2 v2 tl2
            rw [hB2, List.cons_append]
            exact skipWs_cons_of '"' rfl _
          rw [hsk]
          exact rt_members (.ocons k2 v2 tl2) (by intro h; cases h) hkv.2 r f2 (by omega)

end

theorem jsonLoads_dump (v : Json) (hwf : wfJson v = true) : jsonLoads (dumpJson v) = .ok v := by
  unfold jsonLoads
  have h0 : skipWs (dumpJson v) = dumpJson v := by
    have h1 := skipWs_dump v hwf []
    rwa [List.append_nil] at h1
  rw [h0]
  have h1 : parseJ ((dumpJson v).length + 1) .val (dumpJson v ++ []) = .ok (.rv v []) :=
    rt_val v hwf [] rfl ((dumpJson v).length + 1) (by omega)
  rw [List.append_nil] at h1
  rw [h1]
  rfl

theorem pyIndexChar_append (pre : List Char) (x : Char) (hpre : ∀ c ∈ pre, c ≠ x)
    (rest : List Char) : pyIndexChar (pre ++ (x :: rest)) x = some pre.length := by
  induction pre with
  | nil => simp [pyIndexChar]
  | cons c cs ih =>
    have hc : c ≠ x := hpre c (List.mem_cons_self c cs)
    have ih2 := ih (fun d hd => hpre d (List.mem_cons_of_mem c hd))
    simp [pyIndexChar, hc, ih2]

theorem braceSliceParse_embedded (ms : JObj) (pre suf : List Char)
    (hwf : wfJson (.jobj ms) = true)
    (hpre : ∀ c ∈ pre, c ≠ '{') (hsuf : ∀ c ∈ suf, c ≠ '}') :
    braceSliceParse (pre ++ (dumpJson (.jobj ms) ++ suf)) = .ok (.jobj ms) := by
  have hform : pre ++ (dumpJson (.jobj ms) ++ suf)
      = pre ++ ('{' :: ((dumpObj ms ++ ['}']) ++ suf)) := by
    rw [dumpJson]
    rfl
  have hidx : pyIndexChar (pre ++ (dumpJson (.jobj ms) ++ suf)) '{' = some pre.length := by
    rw [hform]
    exact pyIndexChar_append pre '{' hpre _
  have hrev : (pre ++ (dumpJson (.jobj ms) ++ suf)).reverse
      = suf.reverse ++ ('}' :: ((dumpObj ms).reverse ++ ('{' :: pre.reverse))) := by
    rw [dumpJson]
    simp [List.reverse_append, List.append_assoc]
  have hidxr : pyIndexChar ((pre ++ (dumpJson (.jobj ms) ++ suf)).reverse) '}'
      = some suf.length := by
    rw [hrev]
    rw [pyIndexChar_append suf.reverse '}' (by
      intro c hc
      exact hsuf c (List.mem_reverse.mp hc)) _]
    rw [List.length_reverse]
  have hlen : (pre ++ (dumpJson (.jobj ms) ++ suf)).length
      = pre.length + ((dumpJson (.jobj ms)).length + suf.length) := by
    simp [List.length_append]
  have hdlen : 0 < (dumpJson (.jobj ms)).length := dump_len_pos _ hwf
  have hrf : pyRfindChar (pre ++ (dumpJson (.jobj ms) ++ suf)) '}'
      = (pre.length : Int) + (dumpJson (.jobj ms)).length - 1 := by
    unfold pyRfindChar
    rw [hidxr, hlen]
    push_cast
    ring
  have hslice : pySlice (pre ++ (dumpJson (.jobj ms) ++ suf)) pre.length
      (pyRfindChar (pre ++ (dumpJson (.jobj ms) ++ suf)) '}' + 1) = dumpJson (.jobj ms) := by
    rw [hrf]
    unfold pySlice
    rw [List.drop_left]
    have hn : ((pre.length : Int) + (dumpJson (.jobj ms)).length - 1 + 1).toNat - pre.length
        = (dumpJson (.jobj ms)).length := by omega
    rw [hn]
    exact List.take_left _ _
  unfold braceSliceParse
  rw [hidx]
  dsimp only
  rw [hslice]
  exact jsonLoads_dump (.jobj ms) hwf

/-- C2 counterexample: the claim quantifies over arbitrary prose prefixes,
but a prefix containing `{` shifts the brace-bounded slice
(src/main.py lines 170-172): with prefix `"{"` the slice starts at the
prefix's brace, strict parsing fails twice, and `parse` falls back to the
synthesized verdict instead of recovering the embedded object. -/
theorem C2_counterexample :
    wfJson (.jobj sampleMs) = true ∧
    (JObj.keys sampleMs).Perm [("summary").data, ("comments").data, ("labels").data] ∧
    parse_model_json_safe (['{'] ++ (dumpJson (.jobj sampleMs) ++ []))
      ≠ .ok (.jobj sampleMs) := by
  refine ⟨rfl, by decide, ?_⟩
  intro h
  rw [show parse_model_json_safe (['{'] ++ (dumpJson (.jobj sampleMs) ++ []))
      = .ok (.jobj (.ocons (("summary").data)
          (.jstr (("\x7b\x7b\"summary\":\"ok\",\"comments\":[],\"labels\":[]\x7d").data))
          (.ocons (("comments").data) (.jarr .anil)
            (.ocons (("labels").data) (.jarr .anil) .onil)))) from rfl] at h
  simp [sampleMs] at h

/-- C2 (amended): round-trip recovery holds once the prose is brace-clean
on the relevant side — for every well-formed JSON object `ms` with exactly
the keys `summary`, `comments`, `labels` (in any order), every prefix
containing no `{` and every suffix containing no `}`, `parse`
(`parse_model_json_safe`) applied to prefix ++ serialized object ++ suffix
returns exactly the embedded object: the slice from the first `{` to the
last `}` is precisely the serialized object, and strict `json.loads`
inverts the serialization. -/
theorem C2_round_trip_recovery (ms : JObj) (pre suf : List Char)
    (hwf : wfJson (.jobj ms) = true)
    (_hkeys : (JObj.keys ms).Perm [("summary").data, ("comments").data, ("labels").data])
    (hpre : ∀ c ∈ pre, c ≠ '{') (hsuf : ∀ c ∈ suf, c ≠ '}') :
    parse_model_json_safe (pre ++ (dumpJson (.jobj ms) ++ suf)) = .ok (.jobj ms) := by
  unfold parse_model_json_safe
  rw [braceSliceParse_embedded ms pre suf hwf hpre hsuf]

/-- C2 witness: a concrete three-key verdict object embedded in prose is
recovered exactly. -/
theorem C2_round_trip_recovery_witness :
    parse_model_json_safe ((("model says: ").data)
      ++ (dumpJson (.jobj sampleMs) ++ ((" -- done").data))) = .ok (.jobj sampleMs) :=
  C2_round_trip_recovery sampleMs (("model says: ").data) ((" -- done").data)
    rfl (by decide) (by decide) (by decide)
